import Mathlib

/-! simdissdk: electromagnetic band tables, protobuf change macros, projector manager,
simulator clock, entity line edit, string utilities

A shallow embedding of parts of the SIMDIS SDK:

* `simCore/EM/Propagation.cpp`: the received-power equations and the US ECM / IEEE
  frequency band classifiers with their range tables;
* `simVis/Utils.h`: `getLighting` and the `PB_FIELD_CHANGED` family of macros;
* `simVis/ProjectorManager.cpp`: registration bookkeeping of projector nodes;
* `simVis/Utils.h`: the clock of `SimulatorEventHandler`;
* `simQt/EntityLineEdit.cpp`: `setSelected`;
* `simCore/String/Utils.h`: the string functions that `StringUtilsTest.cpp` exercises.

A C++ `double` is embedded as an element of a linearly ordered field: the band
classifiers only compare their argument against constants that are exactly
representable, so the comparisons are those of the numbers themselves.
-/

set_option autoImplicit false

namespace simCore

/-! ## Propagation.cpp : received power -/

/-- Constants and the decibel conversion that `Propagation.cpp` takes from
`simCore/EM/Constants.h`, `simCore/EM/Decibel.h` and `<cmath>`. -/
structure EmEnv (α : Type) where
  /-- Value of `simCore::SMALL_DB_VAL`. -/
  SMALL_DB_VAL : α
  /-- Value of `simCore::LIGHT_SPEED_AIR`. -/
  LIGHT_SPEED_AIR : α
  /-- Value of `simCore::RRE_CONSTANT`. -/
  RRE_CONSTANT : α
  /-- Value of `M_PI`. -/
  M_PI : α
  /-- The function `simCore::linear2dB`. -/
  linear2dB : α → α

/-- The helper `simCore::square` of `simCore/Calc/Math.h`. -/
def square {α : Type} [Mul α] (x : α) : α := x * x

/-- Free space radar range equation, `getRcvdPowerFreeSpace`. -/
def getRcvdPowerFreeSpace {α : Type} [Field α] (env : EmEnv α)
    (rngMeters freqMhz powerWatts xmtGaindB rcvGaindB rcsSqm systemLossdB : α)
    (oneWay : Bool) : α :=
  let lamdaSqrd := square (env.LIGHT_SPEED_AIR / (1000000 * freqMhz))
  if oneWay == false then
    xmtGaindB + rcvGaindB - systemLossdB
      + env.linear2dB ((rcsSqm * powerWatts * lamdaSqrd)
          / (env.RRE_CONSTANT * square (square rngMeters)))
  else
    xmtGaindB + rcvGaindB - systemLossdB
      + env.linear2dB ((powerWatts * lamdaSqrd) / (square (4 * env.M_PI * rngMeters)))

/-- Blake's equation, `getRcvdPowerBlake`: the free space value with the
propagation factor applied. -/
def getRcvdPowerBlake {α : Type} [Field α] (env : EmEnv α)
    (rngMeters freqMhz powerWatts xmtGaindB rcvGaindB rcsSqm ppfdB systemLossdB : α)
    (oneWay : Bool) : α :=
  let rcvPower := getRcvdPowerFreeSpace env rngMeters freqMhz powerWatts xmtGaindB
    rcvGaindB rcsSqm systemLossdB oneWay
  if oneWay == false then rcvPower + (4 * ppfdB) else rcvPower + (2 * ppfdB)

/-! ## Propagation.cpp : frequency bands -/

/-- The enumeration `FrequencyBandUsEcm`. -/
inductive FrequencyBandUsEcm where
  | USECM_FREQ_OUT_OF_BOUNDS
  | USECM_FREQ_A
  | USECM_FREQ_B
  | USECM_FREQ_C
  | USECM_FREQ_D
  | USECM_FREQ_E
  | USECM_FREQ_F
  | USECM_FREQ_G
  | USECM_FREQ_H
  | USECM_FREQ_I
  | USECM_FREQ_J
  | USECM_FREQ_K
  | USECM_FREQ_L
  | USECM_FREQ_M
  deriving DecidableEq, Repr

/-- The enumeration `FrequencyBandIEEE`. -/
inductive FrequencyBandIEEE where
  | IEEE_FREQ_OUT_OF_BOUNDS
  | IEEE_FREQ_HF
  | IEEE_FREQ_VHF
  | IEEE_FREQ_UHF
  | IEEE_FREQ_L
  | IEEE_FREQ_S
  | IEEE_FREQ_C
  | IEEE_FREQ_X
  | IEEE_FREQ_KU
  | IEEE_FREQ_K
  | IEEE_FREQ_KA
  | IEEE_FREQ_V
  | IEEE_FREQ_W
  | IEEE_FREQ_G
  | IEEE_FREQ_MM
  deriving DecidableEq, Repr

open FrequencyBandUsEcm FrequencyBandIEEE

/-- The classifier `toUsEcm(double freqMhz)`. -/
def toUsEcm {α : Type} [LinearOrderedField α] (freqMhz : α) : FrequencyBandUsEcm :=
  if freqMhz < 0 then USECM_FREQ_OUT_OF_BOUNDS
  else if freqMhz < 250 then USECM_FREQ_A
  else if freqMhz < 500 then USECM_FREQ_B
  else if freqMhz < 1000 then USECM_FREQ_C
  else if freqMhz < 2000 then USECM_FREQ_D
  else if freqMhz < 3000 then USECM_FREQ_E
  else if freqMhz < 4000 then USECM_FREQ_F
  else if freqMhz < 6000 then USECM_FREQ_G
  else if freqMhz < 8000 then USECM_FREQ_H
  else if freqMhz < 10000 then USECM_FREQ_I
  else if freqMhz < 20000 then USECM_FREQ_J
  else if freqMhz < 40000 then USECM_FREQ_K
  else if freqMhz < 60000 then USECM_FREQ_L
  else if freqMhz < 100000 then USECM_FREQ_M
  else USECM_FREQ_OUT_OF_BOUNDS

/-- The table `getFreqMhzRange(FrequencyBandUsEcm, double*, double*)`; the two
out-parameters are returned as the pair `(minFreq, maxFreq)`. -/
def getFreqMhzRangeUsEcm {α : Type} [LinearOrderedField α] :
    FrequencyBandUsEcm → α × α
  | USECM_FREQ_A => (0, 250)
  | USECM_FREQ_B => (250, 500)
  | USECM_FREQ_C => (500, 1000)
  | USECM_FREQ_D => (1000, 2000)
  | USECM_FREQ_E => (2000, 3000)
  | USECM_FREQ_F => (3000, 4000)
  | USECM_FREQ_G => (4000, 6000)
  | USECM_FREQ_H => (6000, 8000)
  | USECM_FREQ_I => (8000, 10000)
  | USECM_FREQ_J => (10000, 20000)
  | USECM_FREQ_K => (20000, 40000)
  | USECM_FREQ_L => (40000, 60000)
  | USECM_FREQ_M => (60000, 100000)
  | USECM_FREQ_OUT_OF_BOUNDS => (0, 0)

/-- The classifier `toIeeeBand(double freqMhz, bool useMM)`. -/
def toIeeeBand {α : Type} [LinearOrderedField α] (freqMhz : α) (useMM : Bool) :
    FrequencyBandIEEE :=
  if freqMhz < 3 then IEEE_FREQ_OUT_OF_BOUNDS
  else if freqMhz < 30 then IEEE_FREQ_HF
  else if freqMhz < 300 then IEEE_FREQ_VHF
  else if freqMhz < 1000 then IEEE_FREQ_UHF
  else if freqMhz < 2000 then IEEE_FREQ_L
  else if freqMhz < 4000 then IEEE_FREQ_S
  else if freqMhz < 8000 then IEEE_FREQ_C
  else if freqMhz < 12000 then IEEE_FREQ_X
  else if freqMhz < 18000 then IEEE_FREQ_KU
  else if freqMhz < 27000 then IEEE_FREQ_K
  else if useMM = true ∧ freqMhz ≥ 30000 ∧ freqMhz < 300000 then IEEE_FREQ_MM
  else if freqMhz < 40000 then IEEE_FREQ_KA
  else if freqMhz < 75000 then IEEE_FREQ_V
  else if freqMhz < 110000 then IEEE_FREQ_W
  else if freqMhz < 300000 then IEEE_FREQ_G
  else IEEE_FREQ_OUT_OF_BOUNDS

/-- The table `getFreqMhzRange(FrequencyBandIEEE, double*, double*)`; the two
out-parameters are returned as the pair `(minFreq, maxFreq)`. -/
def getFreqMhzRangeIEEE {α : Type} [LinearOrderedField α] :
    FrequencyBandIEEE → α × α
  | IEEE_FREQ_OUT_OF_BOUNDS => (0, 0)
  | IEEE_FREQ_HF => (3, 30)
  | IEEE_FREQ_VHF => (30, 300)
  | IEEE_FREQ_UHF => (300, 1000)
  | IEEE_FREQ_L => (1000, 2000)
  | IEEE_FREQ_S => (2000, 4000)
  | IEEE_FREQ_C => (4000, 8000)
  | IEEE_FREQ_X => (8000, 12000)
  | IEEE_FREQ_KU => (12000, 18000)
  | IEEE_FREQ_K => (18000, 27000)
  | IEEE_FREQ_KA => (27000, 40000)
  | IEEE_FREQ_V => (40000, 75000)
  | IEEE_FREQ_W => (75000, 110000)
  | IEEE_FREQ_G => (110000, 300000)
  | IEEE_FREQ_MM => (30000, 300000)

end simCore

/-! ## OpenSceneGraph state sets (as used by `simVis/Utils.h`) -/

namespace osg

/-- GL capability names (`osg::StateAttribute::GLMode`, a `GLenum`). -/
abbrev GLMode := Nat

/-- Mode values (`osg::StateAttribute::GLModeValue` and `OverrideValue`, both
`unsigned int`). -/
abbrev GLModeValue := Nat

/-- Enumerator `osg::StateAttribute::OFF`. -/
def OFF : GLModeValue := 0x0
/-- Enumerator `osg::StateAttribute::ON`. -/
def ON : GLModeValue := 0x1
/-- Enumerator `osg::StateAttribute::OVERRIDE`. -/
def OVERRIDE : GLModeValue := 0x2
/-- Enumerator `osg::StateAttribute::PROTECTED`. -/
def PROTECTED : GLModeValue := 0x4
/-- Enumerator `osg::StateAttribute::INHERIT`. -/
def INHERIT : GLModeValue := 0x8

/-- The OpenGL capability `GL_LIGHTING`. -/
def GL_LIGHTING : GLMode := 0x0B50

/-- An `osg::StateSet`, reduced to its mode list: the modes that were set, each with its
value. -/
structure StateSet where
  modeList : List (GLMode × GLModeValue)
  deriving DecidableEq, Repr

/-- The accessor `osg::StateSet::getMode`: the value recorded for `mode`, and `INHERIT`
when the mode list has no entry for it. -/
def StateSet.getMode (s : StateSet) (mode : GLMode) : GLModeValue :=
  match s.modeList.lookup mode with
  | some v => v
  | none => INHERIT

end osg

namespace simVis

/-! ## Utils.h : getLighting -/

/-- The inline function `getLighting(osg::StateSet* stateset, OverrideValue& out_value)`.
A null `stateset` is `none`; the result pairs the returned `bool` with the final content
of the reference parameter `out_value`. -/
def getLighting (stateset : Option osg.StateSet) (out_value : osg.GLModeValue) :
    Bool × osg.GLModeValue :=
  match stateset with
  | none => (false, out_value)
  | some s =>
    let value := s.getMode osg.GL_LIGHTING
    let out_value := s.getMode value
    (out_value != osg.INHERIT, out_value)

/-! ## Utils.h : the PB_FIELD macros

The macros are instantiated on a protobuf message type and one of its optional fields.
A message is reduced to that field: whether it is set, and what its accessor returns.
Evaluation is instrumented: it stops with a fault when a member is called through a
NULL pointer, and also when the field accessor is called on a message that does not
have the field, so that an evaluation that ends in a value has done neither. -/

/-- A protobuf message, reduced to one optional field. -/
structure Message (V : Type) where
  /-- Result of `has_field()`. -/
  has_field : Bool
  /-- Result of the accessor `field()`. -/
  field : V

/-- What an instrumented evaluation can stop on. -/
inductive Fault where
  /-- A member function was called through a NULL pointer. -/
  | nullDereference
  /-- The accessor `field()` was called on a message whose field is not set. -/
  | readOfUnsetField
  deriving DecidableEq, Repr

/-- The expression `(a)->has_field()`. -/
def callHasField {V : Type} (a : Option (Message V)) : Except Fault Bool :=
  match a with
  | none => .error .nullDereference
  | some m => .ok m.has_field

/-- The expression `(a)->field()`. -/
def callField {V : Type} (a : Option (Message V)) : Except Fault V :=
  match a with
  | none => .error .nullDereference
  | some m => if m.has_field then .ok m.field else .error .readOfUnsetField

/-- The C++ operator `&&`: the right operand is evaluated only if the left is true. -/
def andAlso (x y : Except Fault Bool) : Except Fault Bool :=
  match x with
  | .error e => .error e
  | .ok true => y
  | .ok false => .ok false

/-- The C++ operator `||`: the right operand is evaluated only if the left is false. -/
def orElse (x y : Except Fault Bool) : Except Fault Bool :=
  match x with
  | .error e => .error e
  | .ok true => .ok true
  | .ok false => y

/-- The C++ operator `!=` on two evaluated operands. -/
def notEqual {T : Type} [DecidableEq T] (x y : Except Fault T) : Except Fault Bool :=
  match x, y with
  | .error e, _ => .error e
  | .ok _, .error e => .error e
  | .ok u, .ok v => .ok (decide (u ≠ v))

/-- The macro `PB_HAS_FIELD(a, field)`. -/
def PB_HAS_FIELD {V : Type} (a : Option (Message V)) : Except Fault Bool :=
  andAlso (.ok a.isSome) (callHasField a)

/-- The macro `PB_FIELD_STATUS_CHANGED(a, b, field)`. -/
def PB_FIELD_STATUS_CHANGED {V : Type} (a b : Option (Message V)) : Except Fault Bool :=
  notEqual (PB_HAS_FIELD a) (PB_HAS_FIELD b)

/-- The macro `PB_BOTH_HAVE_FIELD(a, b, field)`. -/
def PB_BOTH_HAVE_FIELD {V : Type} (a b : Option (Message V)) : Except Fault Bool :=
  andAlso (PB_HAS_FIELD a) (PB_HAS_FIELD b)

/-- The macro `PB_FIELD_CHANGED(a, b, field)`. -/
def PB_FIELD_CHANGED {V : Type} [DecidableEq V] (a b : Option (Message V)) :
    Except Fault Bool :=
  orElse (PB_FIELD_STATUS_CHANGED a b)
    (andAlso (PB_BOTH_HAVE_FIELD a b) (notEqual (callField a) (callField b)))

/-- Whether the pointer `a` has the field: it is not NULL and the field is set. -/
def hasField {V : Type} (a : Option (Message V)) : Bool :=
  match a with
  | none => false
  | some m => m.has_field

/-- The value of the field `a` has, if it has the field. -/
def fieldValue {V : Type} (a : Option (Message V)) : Option V :=
  match a with
  | none => none
  | some m => if m.has_field then some m.field else none

/-- A state set whose only mode is `GL_LIGHTING`, switched on. -/
def litStateSet : osg.StateSet := { modeList := [(osg.GL_LIGHTING, osg.ON)] }

end simVis

namespace simVis

/-! ## ProjectorManager.cpp

Objects on the heap are referred to by their address. A `ProjectorNode*` handed to the
manager is an address, and the id of the node it points to is read through
`Env.getId`. Objects the manager creates itself (`new osg::Group()`,
`new ProjectorLayer(id)`) carry the address they were allocated at together with what
the manager stored in them; the allocator hands out `heapNext` and moves on, so two
objects created by the manager never share an address. -/

/-- The type `simData::ObjectId`. -/
abbrev ObjectId := Nat

/-- A non-null `ProjectorNode*`. -/
abbrev ProjectorNodePtr := Nat

/-- What is fixed during a run: the terrain engine in use, whether the build defines
`HAVE_OSGEARTH_MAP_GETLAYERS`, and the id of every projector node. -/
structure Env where
  /-- Result of `simVis::useRexEngine()`. -/
  useRexEngine : Bool
  /-- Whether `HAVE_OSGEARTH_MAP_GETLAYERS` is defined. -/
  HAVE_OSGEARTH_MAP_GETLAYERS : Bool
  /-- Result of `proj->getId()`. -/
  getId : ProjectorNodePtr → ObjectId

/-- An `osg::Group` created by `registerProjector` in MP-engine mode. -/
structure Group where
  /-- Address of the group. -/
  addr : Nat
  /-- Render bin number given to the group's state set. -/
  binNumber : Int
  /-- Projector whose texture and uniforms were installed in the group's state set. -/
  proj : ProjectorNodePtr
  deriving DecidableEq, Repr

/-- A `ProjectorLayer` created by `registerProjector` in REX-engine mode. -/
structure ProjectorLayer where
  /-- Address of the layer. -/
  addr : Nat
  /-- Owner entity id, `id_`. -/
  id : ObjectId
  /-- Projector whose texture and uniforms were installed in the layer's state set. -/
  proj : ProjectorNodePtr
  deriving DecidableEq, Repr

/-- The `osgEarth::MapNode` the manager observes, reduced to what the manager reads and
writes: the projector layers in the map's layer list and the render bin number of the
terrain engine's state set. -/
structure MapNode where
  layers : List ProjectorLayer
  terrainBinNumber : Int
  deriving DecidableEq, Repr

/-- The call `getMap()->addLayer(layer)`: the layer is appended to the map's layers. -/
def MapNode.addLayer (m : MapNode) (layer : ProjectorLayer) : MapNode :=
  { m with layers := m.layers ++ [layer] }

/-- The call `getMap()->removeLayer(layer)`: the layer is taken out of the map's
layers. -/
def MapNode.removeLayer (m : MapNode) (layer : ProjectorLayer) : MapNode :=
  { m with layers := m.layers.erase layer }

/-- The type `GroupMap`, a `std::map` from projector id to group, as its list of
bindings. -/
abbrev GroupMap := List (ObjectId × Group)

/-- The lookup `groupMap_.find(id)`: `none` stands for `groupMap_.end()`. -/
def GroupMap.find (m : GroupMap) (id : ObjectId) : Option Group :=
  match m with
  | [] => none
  | (k, g) :: rest => if k = id then some g else GroupMap.find rest id

/-- The removal `groupMap_.erase(iter)` of the binding for `id`. -/
def GroupMap.erase (m : GroupMap) (id : ObjectId) : GroupMap :=
  m.filter (fun e => e.1 ≠ id)

/-- The assignment `groupMap_[id] = group`. -/
def GroupMap.assign (m : GroupMap) (id : ObjectId) (group : Group) : GroupMap :=
  GroupMap.erase m id ++ [(id, group)]

/-- The data members of a `ProjectorManager`, its children as an `osg::Group`, and the
next address the allocator hands out. -/
structure ProjectorManager where
  /-- The observer pointer `mapNode_`; `none` when it is null. -/
  mapNode_ : Option MapNode
  /-- The vector `projectors_`. -/
  projectors_ : List ProjectorNodePtr
  /-- The map `groupMap_`. -/
  groupMap_ : GroupMap
  /-- The vector `projectorLayers_`. -/
  projectorLayers_ : List ProjectorLayer
  /-- The children of the manager node. -/
  children_ : List Group
  /-- Address of the next object created with `new`. -/
  heapNext : Nat
  deriving DecidableEq, Repr

/-- A manager as its constructor leaves it, observing `mapNode`. -/
def ProjectorManager.empty (mapNode : Option MapNode) (heapNext : Nat) : ProjectorManager :=
  { mapNode_ := mapNode, projectors_ := [], groupMap_ := [], projectorLayers_ := [],
    children_ := [], heapNext := heapNext }

/-- The method `ProjectorManager::registerProjector`. The result is `none` when the call
dereferences a null `mapNode_`. -/
def registerProjector (env : Env) (s : ProjectorManager) (proj : ProjectorNodePtr) :
    Option ProjectorManager :=
  if env.useRexEngine then
    if proj ∈ s.projectors_ then some s
    else
      let s1 := { s with projectors_ := s.projectors_ ++ [proj] }
      if env.HAVE_OSGEARTH_MAP_GETLAYERS then
        let layer : ProjectorLayer := { addr := s1.heapNext, id := env.getId proj, proj := proj }
        let s2 := { s1 with projectorLayers_ := s1.projectorLayers_ ++ [layer],
                            heapNext := s1.heapNext + 1 }
        match s2.mapNode_ with
        | none => none
        | some mapNode => some { s2 with mapNode_ := some (mapNode.addLayer layer) }
      else some s1
  else
    if (s.groupMap_.find (env.getId proj)).isSome then some s
    else
      let s1 := { s with projectors_ := s.projectors_ ++ [proj] }
      match s1.mapNode_ with
      | none => none
      | some mapNode =>
        let projGroup : Group :=
          { addr := s1.heapNext,
            binNumber := mapNode.terrainBinNumber + s1.projectors_.length + 1,
            proj := proj }
        some { s1 with children_ := s1.children_ ++ [projGroup],
                       groupMap_ := s1.groupMap_.assign (env.getId proj) projGroup,
                       heapNext := s1.heapNext + 1 }

/-- The method `ProjectorManager::unregisterProjector`. -/
def unregisterProjector (env : Env) (s : ProjectorManager) (proj : ProjectorNodePtr) :
    ProjectorManager :=
  let s1 :=
    if env.useRexEngine then
      match s.projectorLayers_.find? (fun layer => layer.id = env.getId proj) with
      | some layer =>
        { s with
          mapNode_ :=
            if env.HAVE_OSGEARTH_MAP_GETLAYERS then
              s.mapNode_.map (fun mapNode => mapNode.removeLayer layer)
            else s.mapNode_,
          projectorLayers_ := s.projectorLayers_.eraseP (fun layer => layer.id = env.getId proj) }
      | none => s
    else
      match s.groupMap_.find (env.getId proj) with
      | some group =>
        { s with children_ := s.children_.erase group,
                 groupMap_ := s.groupMap_.erase (env.getId proj) }
      | none => s
  { s1 with projectors_ := s1.projectors_.filter (fun q => q ≠ proj) }

/-- The method `ProjectorManager::clear`. -/
def clear (env : Env) (s : ProjectorManager) : ProjectorManager :=
  let s1 :=
    if env.HAVE_OSGEARTH_MAP_GETLAYERS ∧ env.useRexEngine then
      { s with
        mapNode_ := s.mapNode_.map (fun mapNode =>
          s.projectorLayers_.foldl (fun m layer => m.removeLayer layer) mapNode),
        projectorLayers_ := [] }
    else
      { s with groupMap_ := [], children_ := [] }
  { s1 with projectors_ := [] }

/-- A call on the manager. -/
inductive Call where
  | registerProjector (proj : ProjectorNodePtr)
  | unregisterProjector (proj : ProjectorNodePtr)
  | clear
  deriving DecidableEq, Repr

/-- The effect of one call. -/
def Call.apply (env : Env) (s : ProjectorManager) : Call → Option ProjectorManager
  | .registerProjector proj => simVis.registerProjector env s proj
  | .unregisterProjector proj => some (simVis.unregisterProjector env s proj)
  | .clear => some (simVis.clear env s)

/-- The effect of a sequence of calls, first to last. -/
def run (env : Env) (s : ProjectorManager) : List Call → Option ProjectorManager
  | [] => some s
  | c :: rest =>
    match c.apply env s with
    | none => none
    | some s1 => run env s1 rest

/-- The projector nodes a sequence of calls mentions. -/
def callProjectors : List Call → List ProjectorNodePtr
  | [] => []
  | .registerProjector proj :: rest => proj :: callProjectors rest
  | .unregisterProjector proj :: rest => proj :: callProjectors rest
  | .clear :: rest => callProjectors rest

/-- Groups the manager holds are distinct objects: no group is a child twice, no group is
recorded under two ids, and every group held was allocated below `heapNext`. -/
structure GroupsDistinct (s : ProjectorManager) : Prop where
  children_lt : ∀ g ∈ s.children_, g.addr < s.heapNext
  children_nodup : s.children_.Nodup
  map_lt : ∀ i g, s.groupMap_.find i = some g → g.addr < s.heapNext
  map_inj : ∀ i j g, s.groupMap_.find i = some g → s.groupMap_.find j = some g → i = j

/-! ## ProjectorManager : a concrete scenario

Two projector nodes, at addresses 1 and 2, both carry the id 7. -/

/-- MP-engine mode, in which every projector node has the id 7. -/
def sharedIdEnv : Env :=
  { useRexEngine := false, HAVE_OSGEARTH_MAP_GETLAYERS := true, getId := fun _ => 7 }

/-- MP-engine mode, in which every projector node has its own address as id. -/
def ownIdEnv : Env :=
  { useRexEngine := false, HAVE_OSGEARTH_MAP_GETLAYERS := true, getId := fun proj => proj }

/-- A map node without projector layers, terrain in render bin 0. -/
def plainMapNode : MapNode := { layers := [], terrainBinNumber := 0 }

/-- The manager after registering node 1 and then unregistering node 2 under
`sharedIdEnv`. -/
def afterForeignUnregister : ProjectorManager :=
  { mapNode_ := some plainMapNode, projectors_ := [1], groupMap_ := [],
    projectorLayers_ := [], children_ := [], heapNext := 1 }

/-- The group created for node 1 when it is registered first under `ownIdEnv`. -/
def firstGroup : Group := { addr := 0, binNumber := 2, proj := 1 }

/-- The manager after registering node 1 under `ownIdEnv`. -/
def afterFirstRegister : ProjectorManager :=
  { mapNode_ := some plainMapNode, projectors_ := [1], groupMap_ := [(1, firstGroup)],
    projectorLayers_ := [], children_ := [firstGroup], heapNext := 1 }

end simVis

namespace simCore

/-! ## simCore helpers used by `simVis/Utils.h` -/

/-- Modelled from the spec: `simCore::sdkMax` of `simCore/Calc/Math.h`, which is not
among the sources; it returns the larger of its two arguments. -/
def sdkMax {α : Type} [LinearOrder α] (a b : α) : α := max a b

end simCore

namespace simVis

/-! ## Utils.h : SimulatorEventHandler -/

/-- The data members of a `SimulatorEventHandler`, without the simulator manager it
drives. -/
structure SimulatorEventHandler (α : Type) where
  startTime_ : α
  endTime_ : α
  currentTime_ : α
  lastEventTime_ : α
  loop_ : Bool
  playing_ : Bool

/-- The constructor `SimulatorEventHandler(simMgr, startTime, endTime, loop)`. -/
def SimulatorEventHandler.new {α : Type} [LinearOrderedField α] (startTime endTime : α)
    (loop : Bool) : SimulatorEventHandler α :=
  { startTime_ := startTime, endTime_ := endTime, currentTime_ := startTime,
    lastEventTime_ := -1, loop_ := loop, playing_ := true }

/-- The method `setTime(double t)`. -/
def SimulatorEventHandler.setTime {α : Type} [LinearOrderedField α]
    (h : SimulatorEventHandler α) (t : α) : SimulatorEventHandler α :=
  { h with currentTime_ := simCore.sdkMax t h.startTime_, lastEventTime_ := -1 }

/-- The method `getTime()`. -/
def SimulatorEventHandler.getTime {α : Type} (h : SimulatorEventHandler α) : α :=
  h.currentTime_

end simVis

namespace simQt

/-! ## EntityLineEdit.cpp

Entity ids are `uint64_t` values. The entity tree model and the tree widget inside the
entity dialog are not among the sources; the line edit sees the model through `index`
and `data`, and the dialog through what it sends back on its `itemSelected` signal,
which is connected to the slot `setSelected`. -/

/-- A valid `QModelIndex`. -/
abbrev QModelIndex := Nat

/-- The `simQt::EntityTreeModel` as the line edit uses it. -/
structure EntityTreeModel where
  /-- Result of `index(id)`; `none` is an invalid `QModelIndex`. -/
  index : Nat → Option QModelIndex
  /-- Result of `data(index, Qt::DisplayRole).toString()`. -/
  data : QModelIndex → String

/-- The `EntityDialog` owned by the line edit. -/
structure EntityDialog where
  /-- The item selected in the dialog's tree. -/
  treeSelection : Option Nat
  /-- Whether the tree reports a selection made by `setSelected` through its
  `itemsSelected` signal. -/
  reportsSelection : Bool

/-- The method `EntityDialog::setItemSelected`, together with the slot
`EntityDialog::setSelected_`: the new dialog, and the id the dialog emits through
`itemSelected`, if it emits. -/
def EntityDialog.setItemSelected (dialog : EntityDialog) (id : Nat) :
    EntityDialog × Option Nat :=
  if id ≠ 0 then
    ({ dialog with treeSelection := some id },
      if dialog.reportsSelection then some id else none)
  else
    ({ dialog with treeSelection := none }, none)

/-- The style sheet `VALID_ENTITY`. -/
def VALID_ENTITY : String := ""

/-- The data members of an `EntityLineEdit`, the text and style sheet of its
`QLineEdit`, and the ids it has emitted through `itemSelected`. -/
structure EntityLineEdit where
  /-- The pointer `entityTreeModel_`; `none` when it is NULL. -/
  entityTreeModel_ : Option EntityTreeModel
  /-- The pointer `entityDialog_`; `none` when it is NULL. -/
  entityDialog_ : Option EntityDialog
  uniqueId_ : Nat
  needToVerify_ : Bool
  lineEditText : String
  lineEditStyleSheet : String
  emittedItemSelected : List Nat

/-- The method `EntityLineEdit::selected`. -/
def EntityLineEdit.selected (s : EntityLineEdit) : Nat := s.uniqueId_

/-- The method `EntityLineEdit::setSelected`, with the returned `int`. The dialog's
`itemSelected` signal calls the method again; `fuel` bounds the depth of such calls and
the result is `none` when it is used up. -/
def EntityLineEdit.setSelected : Nat → EntityLineEdit → Nat → Option (Int × EntityLineEdit)
  | 0, _, _ => none
  | fuel + 1, s, id =>
    match s.entityTreeModel_ with
    | none => some (1, s)
    | some model =>
      if id = s.uniqueId_ then some (1, s)
      else
        match model.index id with
        | none => some (1, s)
        | some index =>
          let s1 := { s with lineEditText := model.data index, uniqueId_ := id,
                             needToVerify_ := false, lineEditStyleSheet := VALID_ENTITY }
          let afterDialog : Option EntityLineEdit :=
            match s1.entityDialog_ with
            | none => some s1
            | some dialog =>
              let s2 := { s1 with entityDialog_ := some (dialog.setItemSelected s1.uniqueId_).1 }
              match (dialog.setItemSelected s1.uniqueId_).2 with
              | none => some s2
              | some emitted =>
                (EntityLineEdit.setSelected fuel s2 emitted).map (fun r => r.2)
          afterDialog.map (fun s3 =>
            (0, { s3 with emittedItemSelected := s3.emittedItemSelected ++ [s3.uniqueId_] }))

/-- The condition under which `setSelected(id)` takes the id: a model is set, the id is
not the one selected already, and the model has a valid index for it. -/
def EntityLineEdit.takes (s : EntityLineEdit) (id : Nat) : Prop :=
  ∃ model, s.entityTreeModel_ = some model ∧ id ≠ s.uniqueId_ ∧ (model.index id).isSome = true

end simQt

namespace simCore.StringUtils

/-! ## simCore/String/Utils.h

The functions of `simCore::StringUtils` are exercised by
`Testing/SimCore/StringUtilsTest.cpp`; their bodies are not among the sources. A
`std::string` is the list of its characters. -/

/-- Whether `str` begins with `needle`. -/
def startsWith : List Char → List Char → Bool
  | _, [] => true
  | [], _ :: _ => false
  | c :: str, d :: needle => decide (c = d) && startsWith str needle

/-- The position `std::string::find(needle)` answers: where `needle` first starts in
`str`; `none` stands for `npos`. -/
def find : List Char → List Char → Option Nat
  | [], needle => if needle = [] then some 0 else none
  | c :: str, needle =>
    if startsWith (c :: str) needle then some 0 else (find str needle).map (fun pos => pos + 1)

/-- The position `std::string::rfind(needle)` answers: where `needle` last starts in
`str`; `none` stands for `npos`. -/
def rfind : List Char → List Char → Option Nat
  | [], needle => if needle = [] then some 0 else none
  | c :: str, needle =>
    match rfind str needle with
    | some pos => some (pos + 1)
    | none => if startsWith (c :: str) needle then some 0 else none

/-- The position `std::string::find(char)` answers. -/
def findChar : List Char → Char → Option Nat
  | [], _ => none
  | c :: str, ch => if c = ch then some 0 else (findChar str ch).map (fun pos => pos + 1)

/-- The position `std::string::rfind(char)` answers. -/
def rfindChar : List Char → Char → Option Nat
  | [], _ => none
  | c :: str, ch =>
    match rfindChar str ch with
    | some pos => some (pos + 1)
    | none => if c = ch then some 0 else none

/-- The string `needle` occurs in `str`. -/
def occurs (str needle : List Char) : Prop := ∃ p q, str = p ++ needle ++ q

/-- Modelled from the spec: `StringUtils::before(str, needle)`, whose body is not among
the sources: the part of `str` before the first occurrence of `needle`, and all of
`str` when `needle` does not occur. -/
def before (str needle : List Char) : List Char :=
  match find str needle with
  | some pos => str.take pos
  | none => str

/-- Modelled from the spec: `StringUtils::after(str, needle)`, whose body is not among
the sources: the part of `str` after the first occurrence of `needle`, and the empty
string when `needle` does not occur. -/
def after (str needle : List Char) : List Char :=
  match find str needle with
  | some pos => str.drop (pos + needle.length)
  | none => []

/-- Modelled from the spec: `StringUtils::beforeLast(str, needle)`, whose body is not
among the sources: the part of `str` before the last occurrence of `needle`, and all of
`str` when `needle` does not occur. -/
def beforeLast (str needle : List Char) : List Char :=
  match rfind str needle with
  | some pos => str.take pos
  | none => str

/-- Modelled from the spec: `StringUtils::afterLast(str, needle)`, whose body is not
among the sources: the part of `str` after the last occurrence of `needle`, and the
empty string when `needle` does not occur. -/
def afterLast (str needle : List Char) : List Char :=
  match rfind str needle with
  | some pos => str.drop (pos + needle.length)
  | none => []

/-- Modelled from the spec: the overload `StringUtils::before(str, char)`, whose body is
not among the sources. -/
def beforeChar (str : List Char) (ch : Char) : List Char :=
  match findChar str ch with
  | some pos => str.take pos
  | none => str

/-- Modelled from the spec: the overload `StringUtils::after(str, char)`, whose body is
not among the sources. -/
def afterChar (str : List Char) (ch : Char) : List Char :=
  match findChar str ch with
  | some pos => str.drop (pos + 1)
  | none => []

/-- Modelled from the spec: the overload `StringUtils::beforeLast(str, char)`, whose
body is not among the sources. -/
def beforeLastChar (str : List Char) (ch : Char) : List Char :=
  match rfindChar str ch with
  | some pos => str.take pos
  | none => str

/-- Modelled from the spec: the overload `StringUtils::afterLast(str, char)`, whose body
is not among the sources. -/
def afterLastChar (str : List Char) (ch : Char) : List Char :=
  match rfindChar str ch with
  | some pos => str.drop (pos + 1)
  | none => []

/-- The scan behind `substitute`: it walks the haystack left to right; `skip` counts the
characters of a needle just replaced that are still to be passed over; the replacement
goes to the output and is never scanned. -/
def substituteScan (needle repl : List Char) (replaceAll : Bool) :
    Nat → List Char → List Char
  | _, [] => []
  | skip + 1, _ :: rest => substituteScan needle repl replaceAll skip rest
  | 0, c :: rest =>
    if startsWith (c :: rest) needle then
      repl ++
        (if replaceAll then substituteScan needle repl replaceAll (needle.length - 1) rest
         else (c :: rest).drop needle.length)
    else c :: substituteScan needle repl replaceAll 0 rest

/-- Modelled from the spec: `StringUtils::substitute(haystack, needle, repl,
replaceAll)`, whose body is not among the sources: occurrences of `needle` found
scanning `haystack` left to right are replaced by `repl`, all of them or only the first.
The spec does not say what an empty needle does; here it leaves `haystack` as it is. -/
def substitute (haystack needle repl : List Char) (replaceAll : Bool) : List Char :=
  if needle = [] then haystack else substituteScan needle repl replaceAll 0 haystack

/-- The constant `STR_WHITE_SPACE_CHARS`: space, tab, carriage return and newline. -/
def STR_WHITE_SPACE_CHARS : List Char := [' ', '\t', '\r', '\n']

/-- Modelled from the spec: `StringUtils::trimLeft(str, whiteSpace)`, whose body is not
among the sources: `str` from its first character that is not in `whiteSpace`. -/
def trimLeft (str whiteSpace : List Char) : List Char :=
  str.dropWhile (fun c => decide (c ∈ whiteSpace))

/-- Modelled from the spec: `StringUtils::trimRight(str, whiteSpace)`, whose body is not
among the sources: `str` up to its last character that is not in `whiteSpace`. -/
def trimRight (str whiteSpace : List Char) : List Char :=
  (str.reverse.dropWhile (fun c => decide (c ∈ whiteSpace))).reverse

/-- Modelled from the spec: `StringUtils::trim(str, whiteSpace)`, whose body is not
among the sources: trimmed on the right, then on the left. -/
def trim (str whiteSpace : List Char) : List Char :=
  trimLeft (trimRight str whiteSpace) whiteSpace

end simCore.StringUtils

namespace simCore

open FrequencyBandUsEcm FrequencyBandIEEE

/-! ## Propagation.cpp : case analysis of the classifiers -/

/-- The branches of `toUsEcm`, each with the interval of frequencies that reaches it. -/
theorem toUsEcm_cases {α : Type} [LinearOrderedField α] (f : α) :
    (f < 0 ∧ toUsEcm f = USECM_FREQ_OUT_OF_BOUNDS) ∨
    (0 ≤ f ∧ f < 250 ∧ toUsEcm f = USECM_FREQ_A) ∨
    (250 ≤ f ∧ f < 500 ∧ toUsEcm f = USECM_FREQ_B) ∨
    (500 ≤ f ∧ f < 1000 ∧ toUsEcm f = USECM_FREQ_C) ∨
    (1000 ≤ f ∧ f < 2000 ∧ toUsEcm f = USECM_FREQ_D) ∨
    (2000 ≤ f ∧ f < 3000 ∧ toUsEcm f = USECM_FREQ_E) ∨
    (3000 ≤ f ∧ f < 4000 ∧ toUsEcm f = USECM_FREQ_F) ∨
    (4000 ≤ f ∧ f < 6000 ∧ toUsEcm f = USECM_FREQ_G) ∨
    (6000 ≤ f ∧ f < 8000 ∧ toUsEcm f = USECM_FREQ_H) ∨
    (8000 ≤ f ∧ f < 10000 ∧ toUsEcm f = USECM_FREQ_I) ∨
    (10000 ≤ f ∧ f < 20000 ∧ toUsEcm f = USECM_FREQ_J) ∨
    (20000 ≤ f ∧ f < 40000 ∧ toUsEcm f = USECM_FREQ_K) ∨
    (40000 ≤ f ∧ f < 60000 ∧ toUsEcm f = USECM_FREQ_L) ∨
    (60000 ≤ f ∧ f < 100000 ∧ toUsEcm f = USECM_FREQ_M) ∨
    (100000 ≤ f ∧ toUsEcm f = USECM_FREQ_OUT_OF_BOUNDS) := by
  unfold toUsEcm
  refine (em (f < 0)).elim (fun h => Or.inl ⟨h, if_pos h⟩) (fun h => Or.inr ?_)
  rw [if_neg h]
  iterate 13
    refine (em (f < _)).elim (fun h => Or.inl ⟨not_lt.mp ‹_›, h, if_pos h⟩) (fun h => Or.inr ?_)
    rw [if_neg h]
  exact ⟨not_lt.mp ‹_›, rfl⟩

/-- The branches of `toIeeeBand` with `useMM = false`, each with the interval of
frequencies that reaches it. -/
theorem toIeeeBand_false_cases {α : Type} [LinearOrderedField α] (f : α) :
    (f < 3 ∧ toIeeeBand f false = IEEE_FREQ_OUT_OF_BOUNDS) ∨
    (3 ≤ f ∧ f < 30 ∧ toIeeeBand f false = IEEE_FREQ_HF) ∨
    (30 ≤ f ∧ f < 300 ∧ toIeeeBand f false = IEEE_FREQ_VHF) ∨
    (300 ≤ f ∧ f < 1000 ∧ toIeeeBand f false = IEEE_FREQ_UHF) ∨
    (1000 ≤ f ∧ f < 2000 ∧ toIeeeBand f false = IEEE_FREQ_L) ∨
    (2000 ≤ f ∧ f < 4000 ∧ toIeeeBand f false = IEEE_FREQ_S) ∨
    (4000 ≤ f ∧ f < 8000 ∧ toIeeeBand f false = IEEE_FREQ_C) ∨
    (8000 ≤ f ∧ f < 12000 ∧ toIeeeBand f false = IEEE_FREQ_X) ∨
    (12000 ≤ f ∧ f < 18000 ∧ toIeeeBand f false = IEEE_FREQ_KU) ∨
    (18000 ≤ f ∧ f < 27000 ∧ toIeeeBand f false = IEEE_FREQ_K) ∨
    (27000 ≤ f ∧ f < 40000 ∧ toIeeeBand f false = IEEE_FREQ_KA) ∨
    (40000 ≤ f ∧ f < 75000 ∧ toIeeeBand f false = IEEE_FREQ_V) ∨
    (75000 ≤ f ∧ f < 110000 ∧ toIeeeBand f false = IEEE_FREQ_W) ∨
    (110000 ≤ f ∧ f < 300000 ∧ toIeeeBand f false = IEEE_FREQ_G) ∨
    (300000 ≤ f ∧ toIeeeBand f false = IEEE_FREQ_OUT_OF_BOUNDS) := by
  unfold toIeeeBand
  refine (em (f < 3)).elim (fun h => Or.inl ⟨h, if_pos h⟩) (fun h => Or.inr ?_)
  rw [if_neg h]
  iterate 9
    refine (em (f < _)).elim (fun h => Or.inl ⟨not_lt.mp ‹_›, h, if_pos h⟩) (fun h => Or.inr ?_)
    rw [if_neg h]
  rw [if_neg (fun hm => Bool.false_ne_true hm.1)]
  iterate 4
    refine (em (f < _)).elim (fun h => Or.inl ⟨not_lt.mp ‹_›, h, if_pos h⟩) (fun h => Or.inr ?_)
    rw [if_neg h]
  exact ⟨not_lt.mp ‹_›, rfl⟩

/-- With `useMM = true` the classifier answers `IEEE_FREQ_MM` on 30000 ≤ f < 300000 and
otherwise what it answers with `useMM = false`. -/
theorem toIeeeBand_true_eq {α : Type} [LinearOrderedField α] (f : α) :
    toIeeeBand f true
      = if 30000 ≤ f ∧ f < 300000 then IEEE_FREQ_MM else toIeeeBand f false := by
  unfold toIeeeBand
  by_cases hm : 30000 ≤ f ∧ f < 300000
  · rw [if_pos hm]
    iterate 10
      rw [if_neg]
      swap
      · exact not_lt.mpr (le_trans (by norm_num) hm.1)
    rw [if_pos ⟨rfl, hm.1, hm.2⟩]
  · rw [if_neg hm]
    have h1 : ¬ (true = true ∧ f ≥ 30000 ∧ f < 300000) := fun h => hm h.2
    have h2 : ¬ (false = true ∧ f ≥ 30000 ∧ f < 300000) := fun h => Bool.false_ne_true h.1
    rw [if_neg h1, if_neg h2]

set_option linter.unusedTactic false in
set_option maxHeartbeats 4000000 in
/-- Claim C1: for every frequency and every US ECM band other than
`USECM_FREQ_OUT_OF_BOUNDS`, `toUsEcm` answers that band if and only if the frequency lies
in the half-open interval `[min, max)` that `getFreqMhzRange` reports for the band. -/
theorem toUsEcm_eq_iff_mem_range {α : Type} [LinearOrderedField α] (f : α) (b : FrequencyBandUsEcm)
    (hb : b ≠ USECM_FREQ_OUT_OF_BOUNDS) :
    toUsEcm f = b ↔
      (getFreqMhzRangeUsEcm b : α × α).1 ≤ f ∧ f < (getFreqMhzRangeUsEcm b : α × α).2 := by
  cases b
  · exact absurd rfl hb
  all_goals
    simp only [getFreqMhzRangeUsEcm]
    rcases toUsEcm_cases f with
      ⟨h2, hr⟩ | ⟨h1, h2, hr⟩ | ⟨h1, h2, hr⟩ | ⟨h1, h2, hr⟩ | ⟨h1, h2, hr⟩ | ⟨h1, h2, hr⟩ |
      ⟨h1, h2, hr⟩ | ⟨h1, h2, hr⟩ | ⟨h1, h2, hr⟩ | ⟨h1, h2, hr⟩ | ⟨h1, h2, hr⟩ | ⟨h1, h2, hr⟩ |
      ⟨h1, h2, hr⟩ | ⟨h1, h2, hr⟩ | ⟨h1, hr⟩ <;>
    rw [hr] <;> constructor <;> intro e <;>
    first
      | exact ⟨h1, h2⟩
      | exact absurd e (by decide)
      | rfl
      | (have c := e.1.trans_lt h2; norm_num at c; done)
      | (have c := h1.trans_lt e.2; norm_num at c; done)

set_option linter.unusedTactic false in
set_option maxHeartbeats 4000000 in
/-- With `useMM = false` a frequency is classified into an IEEE band other than
`IEEE_FREQ_MM` exactly when it lies in the half-open interval of the range table. -/
theorem toIeeeBand_false_eq_iff {α : Type} [LinearOrderedField α] (f : α)
    (b : FrequencyBandIEEE) (hb : b ≠ IEEE_FREQ_OUT_OF_BOUNDS) (hm : b ≠ IEEE_FREQ_MM) :
    toIeeeBand f false = b ↔
      (getFreqMhzRangeIEEE b : α × α).1 ≤ f ∧ f < (getFreqMhzRangeIEEE b : α × α).2 := by
  cases b
  · exact absurd rfl hb
  case IEEE_FREQ_MM => exact absurd rfl hm
  all_goals
    simp only [getFreqMhzRangeIEEE]
    rcases toIeeeBand_false_cases f with
      ⟨h2, hr⟩ | ⟨h1, h2, hr⟩ | ⟨h1, h2, hr⟩ | ⟨h1, h2, hr⟩ | ⟨h1, h2, hr⟩ | ⟨h1, h2, hr⟩ |
      ⟨h1, h2, hr⟩ | ⟨h1, h2, hr⟩ | ⟨h1, h2, hr⟩ | ⟨h1, h2, hr⟩ | ⟨h1, h2, hr⟩ | ⟨h1, h2, hr⟩ |
      ⟨h1, h2, hr⟩ | ⟨h1, h2, hr⟩ | ⟨h1, hr⟩ <;>
    rw [hr] <;> constructor <;> intro e <;>
    first
      | exact ⟨h1, h2⟩
      | exact absurd e (by decide)
      | rfl
      | (have c := e.1.trans_lt h2; norm_num at c; done)
      | (have c := h1.trans_lt e.2; norm_num at c; done)

/-- With `useMM = false` the classifier never answers `IEEE_FREQ_MM`. -/
theorem toIeeeBand_false_ne_MM {α : Type} [LinearOrderedField α] (f : α) :
    toIeeeBand f false ≠ IEEE_FREQ_MM := by
  rcases toIeeeBand_false_cases f with
      ⟨h2, hr⟩ | ⟨h1, h2, hr⟩ | ⟨h1, h2, hr⟩ | ⟨h1, h2, hr⟩ | ⟨h1, h2, hr⟩ | ⟨h1, h2, hr⟩ |
      ⟨h1, h2, hr⟩ | ⟨h1, h2, hr⟩ | ⟨h1, h2, hr⟩ | ⟨h1, h2, hr⟩ | ⟨h1, h2, hr⟩ | ⟨h1, h2, hr⟩ |
      ⟨h1, h2, hr⟩ | ⟨h1, h2, hr⟩ | ⟨h1, hr⟩ <;>
  rw [hr] <;> decide

/-- With `useMM = false` the classifier answers out-of-bounds exactly below 3 MHz and
from 300000 MHz on. -/
theorem toIeeeBand_false_oob_iff {α : Type} [LinearOrderedField α] (f : α) :
    toIeeeBand f false = IEEE_FREQ_OUT_OF_BOUNDS ↔ f < 3 ∨ 300000 ≤ f := by
  rcases toIeeeBand_false_cases f with
      ⟨h2, hr⟩ | ⟨h1, h2, hr⟩ | ⟨h1, h2, hr⟩ | ⟨h1, h2, hr⟩ | ⟨h1, h2, hr⟩ | ⟨h1, h2, hr⟩ |
      ⟨h1, h2, hr⟩ | ⟨h1, h2, hr⟩ | ⟨h1, h2, hr⟩ | ⟨h1, h2, hr⟩ | ⟨h1, h2, hr⟩ | ⟨h1, h2, hr⟩ |
      ⟨h1, h2, hr⟩ | ⟨h1, h2, hr⟩ | ⟨h1, hr⟩ <;>
  rw [hr] <;>
  first
    | exact ⟨fun _ => Or.inl h2, fun _ => rfl⟩
    | exact ⟨fun _ => Or.inr h1, fun _ => rfl⟩
    | (refine ⟨fun e => absurd e (by decide), fun e => ?_⟩
       rcases e with e | e
       · exact absurd (lt_of_le_of_lt h1 e) (by norm_num)
       · exact absurd (lt_of_le_of_lt e h2) (by norm_num))

/-- Witness for C1: 300 MHz is in band B, whose table entry is `[250, 500)`. -/
theorem toUsEcm_eq_iff_mem_range_witness :
    USECM_FREQ_B ≠ USECM_FREQ_OUT_OF_BOUNDS ∧
    (toUsEcm (300 : ℚ) = USECM_FREQ_B ↔
      (getFreqMhzRangeUsEcm USECM_FREQ_B : ℚ × ℚ).1 ≤ 300 ∧
        (300 : ℚ) < (getFreqMhzRangeUsEcm USECM_FREQ_B : ℚ × ℚ).2) :=
  ⟨by decide, toUsEcm_eq_iff_mem_range (300 : ℚ) USECM_FREQ_B (by decide)⟩

/-- Claim C2: with `useMM = false`, for every IEEE band other than out-of-bounds and MM
the classifier answers that band if and only if the frequency lies in the half-open
interval of the range table; it never answers `IEEE_FREQ_MM`; and it answers
`IEEE_FREQ_OUT_OF_BOUNDS` exactly when `f < 3` or `f ≥ 300000`. -/
theorem toIeeeBand_false_spec {α : Type} [LinearOrderedField α] (f : α)
    (b : FrequencyBandIEEE) (hb : b ≠ IEEE_FREQ_OUT_OF_BOUNDS) (hm : b ≠ IEEE_FREQ_MM) :
    (toIeeeBand f false = b ↔
      (getFreqMhzRangeIEEE b : α × α).1 ≤ f ∧ f < (getFreqMhzRangeIEEE b : α × α).2) ∧
    toIeeeBand f false ≠ IEEE_FREQ_MM ∧
    (toIeeeBand f false = IEEE_FREQ_OUT_OF_BOUNDS ↔ f < 3 ∨ f ≥ 300000) :=
  ⟨toIeeeBand_false_eq_iff f b hb hm, toIeeeBand_false_ne_MM f, toIeeeBand_false_oob_iff f⟩

/-- Witness for C2: band KA at 35000 MHz. -/
theorem toIeeeBand_false_spec_witness :
    IEEE_FREQ_KA ≠ IEEE_FREQ_OUT_OF_BOUNDS ∧ IEEE_FREQ_KA ≠ IEEE_FREQ_MM ∧
    ((toIeeeBand (35000 : ℚ) false = IEEE_FREQ_KA ↔
      (getFreqMhzRangeIEEE IEEE_FREQ_KA : ℚ × ℚ).1 ≤ 35000 ∧
        (35000 : ℚ) < (getFreqMhzRangeIEEE IEEE_FREQ_KA : ℚ × ℚ).2) ∧
    toIeeeBand (35000 : ℚ) false ≠ IEEE_FREQ_MM ∧
    (toIeeeBand (35000 : ℚ) false = IEEE_FREQ_OUT_OF_BOUNDS ↔
      (35000 : ℚ) < 3 ∨ (35000 : ℚ) ≥ 300000)) :=
  ⟨by decide, by decide,
    toIeeeBand_false_spec (35000 : ℚ) IEEE_FREQ_KA (by decide) (by decide)⟩

/-- Claim C3: with `useMM = true` the classifier answers `IEEE_FREQ_MM` exactly on
`30000 ≤ f < 300000`, which is the range the table reports for `IEEE_FREQ_MM`; for every
other frequency it answers what it answers with `useMM = false`; and it never answers
`IEEE_FREQ_V`, `IEEE_FREQ_W` or `IEEE_FREQ_G`. -/
theorem toIeeeBand_true_spec {α : Type} [LinearOrderedField α] (f : α) :
    (toIeeeBand f true = IEEE_FREQ_MM ↔ 30000 ≤ f ∧ f < 300000) ∧
    (getFreqMhzRangeIEEE IEEE_FREQ_MM : α × α) = (30000, 300000) ∧
    (¬ (30000 ≤ f ∧ f < 300000) → toIeeeBand f true = toIeeeBand f false) ∧
    toIeeeBand f true ≠ IEEE_FREQ_V ∧ toIeeeBand f true ≠ IEEE_FREQ_W ∧
    toIeeeBand f true ≠ IEEE_FREQ_G := by
  rw [toIeeeBand_true_eq]
  by_cases hm : 30000 ≤ f ∧ f < 300000
  · rw [if_pos hm]
    exact ⟨⟨fun _ => hm, fun _ => rfl⟩, rfl, fun h => absurd hm h,
      by decide, by decide, by decide⟩
  · rw [if_neg hm]
    refine ⟨⟨fun h => absurd h (toIeeeBand_false_ne_MM f), fun h => absurd h hm⟩, rfl,
      fun _ => rfl, fun h => hm ?_, fun h => hm ?_, fun h => hm ?_⟩
    · have r := (toIeeeBand_false_eq_iff f IEEE_FREQ_V (by decide) (by decide)).mp h
      simp only [getFreqMhzRangeIEEE] at r
      exact ⟨le_trans (by norm_num) r.1, lt_trans r.2 (by norm_num)⟩
    · have r := (toIeeeBand_false_eq_iff f IEEE_FREQ_W (by decide) (by decide)).mp h
      simp only [getFreqMhzRangeIEEE] at r
      exact ⟨le_trans (by norm_num) r.1, lt_trans r.2 (by norm_num)⟩
    · have r := (toIeeeBand_false_eq_iff f IEEE_FREQ_G (by decide) (by decide)).mp h
      simp only [getFreqMhzRangeIEEE] at r
      exact ⟨le_trans (by norm_num) r.1, r.2⟩

/-- Witness for C3: at 100 MHz, outside the millimetre range, both settings of `useMM`
answer the same band. -/
theorem toIeeeBand_true_spec_witness :
    ¬ ((30000 : ℚ) ≤ 100 ∧ (100 : ℚ) < 300000) ∧
    toIeeeBand (100 : ℚ) true = toIeeeBand (100 : ℚ) false :=
  ⟨by norm_num, (toIeeeBand_true_spec (100 : ℚ)).2.2.1 (by norm_num)⟩

/-- Claim C4: `getRcvdPowerBlake` equals `getRcvdPowerFreeSpace` on the same inputs plus
`4 * ppfdB` when `oneWay` is false and plus `2 * ppfdB` when `oneWay` is true; with
`ppfdB = 0` the two values are equal. -/
theorem getRcvdPowerBlake_eq_freeSpace_add {α : Type} [Field α] (env : EmEnv α)
    (rngMeters freqMhz powerWatts xmtGaindB rcvGaindB rcsSqm ppfdB systemLossdB : α)
    (oneWay : Bool) :
    getRcvdPowerBlake env rngMeters freqMhz powerWatts xmtGaindB rcvGaindB rcsSqm ppfdB
        systemLossdB oneWay
      = getRcvdPowerFreeSpace env rngMeters freqMhz powerWatts xmtGaindB rcvGaindB rcsSqm
          systemLossdB oneWay + (if oneWay = false then 4 * ppfdB else 2 * ppfdB) ∧
    getRcvdPowerBlake env rngMeters freqMhz powerWatts xmtGaindB rcvGaindB rcsSqm 0
        systemLossdB oneWay
      = getRcvdPowerFreeSpace env rngMeters freqMhz powerWatts xmtGaindB rcvGaindB rcsSqm
          systemLossdB oneWay := by
  cases oneWay <;> simp [getRcvdPowerBlake]

end simCore

namespace simVis

/-! ## Utils.h : getLighting and the PB_FIELD macros -/

/-- Claim C5, evaluated on the code: for a state set whose `GL_LIGHTING` mode is `ON`,
which is not `INHERIT`, `getLighting` returns `false` and leaves `INHERIT` in
`out_value`, because the value it reports is the mode looked up under the number `ON`. -/
theorem getLighting_litStateSet :
    litStateSet.getMode osg.GL_LIGHTING = osg.ON ∧ osg.ON ≠ osg.INHERIT ∧
    getLighting (some litStateSet) osg.OFF = (false, osg.INHERIT) := by
  decide

/-- Claim C6: `PB_FIELD_CHANGED(a, b, field)` evaluates to a value for all pointers `a`
and `b`, NULL or not, so it calls no member through a NULL pointer and no accessor on a
message without the field; the value is true if and only if exactly one of `a`, `b` has
the field, or both have it and their field values differ. -/
theorem PB_FIELD_CHANGED_spec {V : Type} [DecidableEq V] (a b : Option (Message V)) :
    ∃ r, PB_FIELD_CHANGED a b = Except.ok r ∧
      (r = true ↔
        (hasField a ≠ hasField b ∨
          (hasField a = true ∧ hasField b = true ∧ fieldValue a ≠ fieldValue b))) := by
  rcases a with _ | ⟨ha, va⟩ <;> rcases b with _ | ⟨hb, vb⟩
  case some.mk.some.mk =>
    cases ha <;> cases hb <;> by_cases hv : va = vb <;>
      simp [PB_FIELD_CHANGED, PB_FIELD_STATUS_CHANGED, PB_BOTH_HAVE_FIELD, PB_HAS_FIELD,
        callHasField, callField, andAlso, orElse, notEqual, hasField, fieldValue, hv]
  case some.mk.none =>
    cases ha <;>
      simp [PB_FIELD_CHANGED, PB_FIELD_STATUS_CHANGED, PB_BOTH_HAVE_FIELD, PB_HAS_FIELD,
        callHasField, callField, andAlso, orElse, notEqual, hasField, fieldValue]
  case none.some.mk =>
    cases hb <;>
      simp [PB_FIELD_CHANGED, PB_FIELD_STATUS_CHANGED, PB_BOTH_HAVE_FIELD, PB_HAS_FIELD,
        callHasField, callField, andAlso, orElse, notEqual, hasField, fieldValue]
  case none.none =>
    simp [PB_FIELD_CHANGED, PB_FIELD_STATUS_CHANGED, PB_BOTH_HAVE_FIELD, PB_HAS_FIELD,
      callHasField, callField, andAlso, orElse, notEqual, hasField, fieldValue]

end simVis

namespace simVis

/-! ## ProjectorManager : the group map as a finite map -/

theorem groupMap_find_filter_ne (m : GroupMap) (id i : ObjectId) :
    GroupMap.find (m.filter (fun e => e.1 ≠ id)) i = if i = id then none else GroupMap.find m i := by
  induction m with
  | nil => simp [GroupMap.find]
  | cons e rest ih =>
    obtain ⟨k, g⟩ := e
    by_cases hk : k = id
    · subst hk
      by_cases hi : i = k
      · subst hi
        simpa [List.filter, GroupMap.find] using ih
      · have hki : ¬ k = i := fun h => hi h.symm
        simpa [List.filter, GroupMap.find, hi, hki] using ih
    · by_cases hi : i = id
      · subst hi
        simpa [List.filter, GroupMap.find, hk] using ih
      · by_cases hki : k = i
        · simp [List.filter, GroupMap.find, hk, hi, hki]
        · simpa [List.filter, GroupMap.find, hk, hi, hki] using ih

theorem groupMap_find_erase (m : GroupMap) (id i : ObjectId) :
    (m.erase id).find i = if i = id then none else m.find i :=
  groupMap_find_filter_ne m id i

theorem groupMap_find_append_single (m : GroupMap) (k : ObjectId) (g : Group) (i : ObjectId) :
    GroupMap.find (m ++ [(k, g)]) i
      = match GroupMap.find m i with
        | some x => some x
        | none => if k = i then some g else none := by
  induction m with
  | nil => simp [GroupMap.find]
  | cons e rest ih =>
    obtain ⟨j, x⟩ := e
    by_cases hj : j = i
    · simp [GroupMap.find, hj]
    · simpa [GroupMap.find, hj] using ih

theorem groupMap_find_assign (m : GroupMap) (id : ObjectId) (g : Group) (i : ObjectId) :
    (m.assign id g).find i = if i = id then some g else m.find i := by
  unfold GroupMap.assign
  rw [groupMap_find_append_single, groupMap_find_erase]
  by_cases hi : i = id
  · subst hi
    simp
  · have hid : ¬ id = i := fun h => hi h.symm
    simp only [if_neg hi, if_neg hid]
    cases GroupMap.find m i <;> rfl

/-! ## ProjectorManager : registration -/

/-- Claim C7: `registerProjector` is idempotent. When registering `proj` succeeds, a
second registration of `proj` succeeds too and returns the manager unchanged, under
either terrain engine: the registered projectors, the id-to-group map, the projector
layers and the child groups all stay as the first registration left them. -/
theorem registerProjector_idempotent (env : Env) (s s1 : ProjectorManager)
    (proj : ProjectorNodePtr) (h : registerProjector env s proj = some s1) :
    registerProjector env s1 proj = some s1 := by
  unfold registerProjector at h
  by_cases hrex : env.useRexEngine = true
  · rw [if_pos hrex] at h
    by_cases hmem : proj ∈ s.projectors_
    · rw [if_pos hmem] at h
      cases h
      unfold registerProjector
      rw [if_pos hrex, if_pos hmem]
    · rw [if_neg hmem] at h
      have hmem1 : proj ∈ s1.projectors_ := by
        by_cases hl : env.HAVE_OSGEARTH_MAP_GETLAYERS = true
        · rw [if_pos hl] at h
          cases hm : s.mapNode_ with
          | none => simp [hm] at h
          | some mapNode =>
            simp only [hm] at h
            cases h
            simp
        · rw [if_neg hl] at h
          cases h
          simp
      unfold registerProjector
      rw [if_pos hrex, if_pos hmem1]
  · rw [if_neg hrex] at h
    by_cases hfind : (s.groupMap_.find (env.getId proj)).isSome = true
    · rw [if_pos hfind] at h
      cases h
      unfold registerProjector
      rw [if_neg hrex, if_pos hfind]
    · rw [if_neg hfind] at h
      have hfind1 : (s1.groupMap_.find (env.getId proj)).isSome = true := by
        cases hm : s.mapNode_ with
        | none => simp [hm] at h
        | some mapNode =>
          simp only [hm] at h
          cases h
          simp [groupMap_find_assign]
      unfold registerProjector
      rw [if_neg hrex, if_pos hfind1]

/-! ## ProjectorManager : what every reachable manager satisfies -/

/-- A property kept by every call that satisfies `Q` is kept by a run of such calls. -/
theorem run_induction (env : Env) (P : ProjectorManager → Prop) (Q : Call → Prop)
    (hstep : ∀ s c s1, Q c → P s → c.apply env s = some s1 → P s1) :
    ∀ (calls : List Call) (s s1 : ProjectorManager), (∀ c ∈ calls, Q c) → P s →
      run env s calls = some s1 → P s1 := by
  intro calls
  induction calls with
  | nil =>
    intro s s1 _ hP h
    simp only [run, Option.some.injEq] at h
    exact h ▸ hP
  | cons c rest ih =>
    intro s s1 hQ hP h
    unfold run at h
    cases hc : c.apply env s with
    | none => simp [hc] at h
    | some s2 =>
      simp only [hc] at h
      exact ih s2 s1 (fun d hd => hQ d (List.mem_cons_of_mem c hd))
        (hstep s c s2 (hQ c (List.mem_cons_self c rest)) hP hc) h

theorem groupsDistinct_empty (mapNode : Option MapNode) (heapNext : Nat) :
    GroupsDistinct (ProjectorManager.empty mapNode heapNext) where
  children_lt := by simp [ProjectorManager.empty]
  children_nodup := by simp [ProjectorManager.empty]
  map_lt := by simp [ProjectorManager.empty, GroupMap.find]
  map_inj := by simp [ProjectorManager.empty, GroupMap.find]

theorem groupsDistinct_registerProjector (env : Env) (s s1 : ProjectorManager)
    (proj : ProjectorNodePtr) (hs : GroupsDistinct s)
    (h : registerProjector env s proj = some s1) : GroupsDistinct s1 := by
  unfold simVis.registerProjector at h
  by_cases hrex : env.useRexEngine = true
  · rw [if_pos hrex] at h
    by_cases hmem : proj ∈ s.projectors_
    · rw [if_pos hmem] at h
      cases h
      exact hs
    · rw [if_neg hmem] at h
      by_cases hl : env.HAVE_OSGEARTH_MAP_GETLAYERS = true
      · rw [if_pos hl] at h
        cases hm : s.mapNode_ with
        | none => simp [hm] at h
        | some mapNode =>
          simp only [hm] at h
          cases h
          exact ⟨fun g hg => Nat.lt_succ_of_lt (hs.children_lt g hg), hs.children_nodup,
            fun i g hg => Nat.lt_succ_of_lt (hs.map_lt i g hg), hs.map_inj⟩
      · rw [if_neg hl] at h
        cases h
        exact ⟨hs.children_lt, hs.children_nodup, hs.map_lt, hs.map_inj⟩
  · rw [if_neg hrex] at h
    by_cases hfind : (s.groupMap_.find (env.getId proj)).isSome = true
    · rw [if_pos hfind] at h
      cases h
      exact hs
    · rw [if_neg hfind] at h
      cases hm : s.mapNode_ with
      | none => simp [hm] at h
      | some mapNode =>
        simp only [hm] at h
        cases h
        refine ⟨?_, ?_, ?_, ?_⟩
        · intro g hg
          simp only [List.mem_append, List.mem_singleton] at hg
          rcases hg with hg | hg
          · exact Nat.lt_succ_of_lt (hs.children_lt g hg)
          · subst hg
            exact Nat.lt_succ_self _
        · refine List.Nodup.append hs.children_nodup (List.nodup_singleton _) ?_
          intro g hg hg2
          simp only [List.mem_singleton] at hg2
          subst hg2
          exact absurd (hs.children_lt _ hg) (Nat.lt_irrefl _)
        · intro i g hg
          simp only [groupMap_find_assign] at hg
          by_cases hi : i = env.getId proj
          · rw [if_pos hi] at hg
            cases hg
            exact Nat.lt_succ_self _
          · rw [if_neg hi] at hg
            exact Nat.lt_succ_of_lt (hs.map_lt i g hg)
        · intro i j g hi hj
          simp only [groupMap_find_assign] at hi hj
          by_cases hi2 : i = env.getId proj <;> by_cases hj2 : j = env.getId proj
          · rw [hi2, hj2]
          · rw [if_pos hi2] at hi
            rw [if_neg hj2] at hj
            cases hi
            exact absurd (hs.map_lt j _ hj) (Nat.lt_irrefl _)
          · rw [if_neg hi2] at hi
            rw [if_pos hj2] at hj
            cases hj
            exact absurd (hs.map_lt i _ hi) (Nat.lt_irrefl _)
          · rw [if_neg hi2] at hi
            rw [if_neg hj2] at hj
            exact hs.map_inj i j g hi hj

theorem groupsDistinct_unregisterProjector (env : Env) (s : ProjectorManager)
    (proj : ProjectorNodePtr) (hs : GroupsDistinct s) :
    GroupsDistinct (unregisterProjector env s proj) := by
  unfold simVis.unregisterProjector
  by_cases hrex : env.useRexEngine = true
  · simp only [if_pos hrex]
    cases s.projectorLayers_.find? (fun layer => layer.id = env.getId proj) with
    | none => exact ⟨hs.children_lt, hs.children_nodup, hs.map_lt, hs.map_inj⟩
    | some layer => exact ⟨hs.children_lt, hs.children_nodup, hs.map_lt, hs.map_inj⟩
  · simp only [if_neg hrex]
    cases hf : s.groupMap_.find (env.getId proj) with
    | none => exact ⟨hs.children_lt, hs.children_nodup, hs.map_lt, hs.map_inj⟩
    | some group =>
      refine ⟨?_, ?_, ?_, ?_⟩
      · intro g hg
        exact hs.children_lt g (List.mem_of_mem_erase hg)
      · exact hs.children_nodup.erase group
      · intro i g hg
        simp only [groupMap_find_erase] at hg
        by_cases hi : i = env.getId proj
        · rw [if_pos hi] at hg
          cases hg
        · rw [if_neg hi] at hg
          exact hs.map_lt i g hg
      · intro i j g hi hj
        simp only [groupMap_find_erase] at hi hj
        by_cases hi2 : i = env.getId proj
        · rw [if_pos hi2] at hi
          cases hi
        · by_cases hj2 : j = env.getId proj
          · rw [if_pos hj2] at hj
            cases hj
          · rw [if_neg hi2] at hi
            rw [if_neg hj2] at hj
            exact hs.map_inj i j g hi hj

theorem groupsDistinct_clear (env : Env) (s : ProjectorManager) (hs : GroupsDistinct s) :
    GroupsDistinct (clear env s) := by
  unfold simVis.clear
  by_cases hc : env.HAVE_OSGEARTH_MAP_GETLAYERS = true ∧ env.useRexEngine = true
  · simp only [if_pos hc]
    exact ⟨hs.children_lt, hs.children_nodup, hs.map_lt, hs.map_inj⟩
  · simp only [if_neg hc]
    exact ⟨by simp, by simp, by simp [GroupMap.find], by simp [GroupMap.find]⟩

theorem groupsDistinct_run (env : Env) (mapNode : Option MapNode) (heapNext : Nat)
    (calls : List Call) (s : ProjectorManager)
    (h : run env (ProjectorManager.empty mapNode heapNext) calls = some s) :
    GroupsDistinct s := by
  refine run_induction env GroupsDistinct (fun _ => True) ?_ calls _ s (fun _ _ => trivial)
    (groupsDistinct_empty mapNode heapNext) h
  intro s0 c s1 _ hs hc
  cases c with
  | registerProjector proj => exact groupsDistinct_registerProjector env s0 s1 proj hs hc
  | unregisterProjector proj =>
    simp only [Call.apply, Option.some.injEq] at hc
    exact hc ▸ groupsDistinct_unregisterProjector env s0 proj hs
  | clear =>
    simp only [Call.apply, Option.some.injEq] at hc
    exact hc ▸ groupsDistinct_clear env s0 hs

/-! ## ProjectorManager : unregistration and clearing -/

/-- Claim C8: after `unregisterProjector(proj)` on a manager reached from an empty one,
`proj` is no longer registered and the registered projectors are the former ones
without `proj`, in their former order; in MP-engine mode the id of `proj` has no group
in the map any more, the group that was recorded for it is no longer a child, and for
every other id the recorded group and its presence among the children are as before. -/
theorem unregisterProjector_spec (env : Env) (mapNode : Option MapNode) (heapNext : Nat)
    (calls : List Call) (s : ProjectorManager) (proj : ProjectorNodePtr)
    (h : run env (ProjectorManager.empty mapNode heapNext) calls = some s) :
    proj ∉ (unregisterProjector env s proj).projectors_ ∧
    (unregisterProjector env s proj).projectors_ = s.projectors_.filter (fun q => q ≠ proj) ∧
    (env.useRexEngine = false →
      (unregisterProjector env s proj).groupMap_.find (env.getId proj) = none ∧
      (∀ g, s.groupMap_.find (env.getId proj) = some g →
        g ∉ (unregisterProjector env s proj).children_) ∧
      (∀ i, i ≠ env.getId proj →
        (unregisterProjector env s proj).groupMap_.find i = s.groupMap_.find i) ∧
      (∀ i g, i ≠ env.getId proj → s.groupMap_.find i = some g →
        (g ∈ (unregisterProjector env s proj).children_ ↔ g ∈ s.children_))) := by
  have hs := groupsDistinct_run env mapNode heapNext calls s h
  have hp : (unregisterProjector env s proj).projectors_
      = s.projectors_.filter (fun q => q ≠ proj) := by
    unfold unregisterProjector
    by_cases hrex : env.useRexEngine = true
    · simp only [if_pos hrex]
      cases s.projectorLayers_.find? (fun layer => layer.id = env.getId proj) <;> rfl
    · simp only [if_neg hrex]
      cases s.groupMap_.find (env.getId proj) <;> rfl
  refine ⟨?_, hp, ?_⟩
  · rw [hp]
    simp
  · intro hmp
    have hrex : ¬ env.useRexEngine = true := by simp [hmp]
    unfold unregisterProjector
    simp only [if_neg hrex]
    cases hf : s.groupMap_.find (env.getId proj) with
    | none =>
      exact ⟨hf, fun g hg => Option.noConfusion hg, fun _ _ => rfl, fun _ _ _ _ => Iff.rfl⟩
    | some group =>
      refine ⟨?_, ?_, ?_, ?_⟩
      · simp [groupMap_find_erase]
      · intro g hg
        cases hg
        exact hs.children_nodup.not_mem_erase
      · intro i hi
        simp [groupMap_find_erase, hi]
      · intro i g hi hg
        have hne : g ≠ group := fun e => hi (hs.map_inj i (env.getId proj) g hg (e ▸ hf))
        exact List.mem_erase_of_ne hne

/-- What the engine in use leaves untouched: in REX-engine mode the manager has no group
map entries and no child groups, and unless the build has projector layers and the REX
engine is in use it has no projector layers. -/
theorem engineParts_run (env : Env) (mapNode : Option MapNode) (heapNext : Nat)
    (calls : List Call) (s : ProjectorManager)
    (h : run env (ProjectorManager.empty mapNode heapNext) calls = some s) :
    (env.useRexEngine = true → s.groupMap_ = [] ∧ s.children_ = []) ∧
    (¬ (env.HAVE_OSGEARTH_MAP_GETLAYERS = true ∧ env.useRexEngine = true) →
      s.projectorLayers_ = []) := by
  refine run_induction env
    (fun s => (env.useRexEngine = true → s.groupMap_ = [] ∧ s.children_ = []) ∧
      (¬ (env.HAVE_OSGEARTH_MAP_GETLAYERS = true ∧ env.useRexEngine = true) →
        s.projectorLayers_ = []))
    (fun _ => True) ?_ calls _ s (fun _ _ => trivial) ?_ h
  · intro s0 c s1 _ hs hc
    cases c with
    | registerProjector proj =>
      simp only [Call.apply] at hc
      unfold registerProjector at hc
      by_cases hrex : env.useRexEngine = true
      · rw [if_pos hrex] at hc
        by_cases hmem : proj ∈ s0.projectors_
        · rw [if_pos hmem] at hc
          cases hc
          exact hs
        · rw [if_neg hmem] at hc
          by_cases hl : env.HAVE_OSGEARTH_MAP_GETLAYERS = true
          · rw [if_pos hl] at hc
            cases hm : s0.mapNode_ with
            | none => simp [hm] at hc
            | some mapNode =>
              simp only [hm] at hc
              cases hc
              exact ⟨hs.1, fun hn => absurd ⟨hl, hrex⟩ hn⟩
          · rw [if_neg hl] at hc
            cases hc
            exact hs
      · rw [if_neg hrex] at hc
        by_cases hfind : (s0.groupMap_.find (env.getId proj)).isSome = true
        · rw [if_pos hfind] at hc
          cases hc
          exact hs
        · rw [if_neg hfind] at hc
          cases hm : s0.mapNode_ with
          | none => simp [hm] at hc
          | some mapNode =>
            simp only [hm] at hc
            cases hc
            exact ⟨fun hr => absurd hr hrex, hs.2⟩
    | unregisterProjector proj =>
      simp only [Call.apply, Option.some.injEq] at hc
      subst hc
      unfold unregisterProjector
      by_cases hrex : env.useRexEngine = true
      · simp only [if_pos hrex]
        cases hf : s0.projectorLayers_.find? (fun layer => layer.id = env.getId proj) with
        | none => exact hs
        | some layer =>
          refine ⟨hs.1, fun hn => ?_⟩
          have hl := hs.2 hn
          rw [hl] at hf
          simp at hf
      · simp only [if_neg hrex]
        cases s0.groupMap_.find (env.getId proj) with
        | none => exact hs
        | some group => exact ⟨fun hr => absurd hr hrex, hs.2⟩
    | clear =>
      simp only [Call.apply, Option.some.injEq] at hc
      subst hc
      unfold clear
      by_cases hcl : env.HAVE_OSGEARTH_MAP_GETLAYERS = true ∧ env.useRexEngine = true
      · rw [if_pos hcl]
        exact ⟨hs.1, fun _ => rfl⟩
      · rw [if_neg hcl]
        exact ⟨fun _ => ⟨rfl, rfl⟩, hs.2⟩
  · exact ⟨fun _ => ⟨rfl, rfl⟩, fun _ => rfl⟩

/-- Claim C9: from any manager reached from an empty one by calls under a fixed terrain
engine, `clear()` leaves no registered projector, no entry in the id-to-group map, no
projector layer and no child group. -/
theorem clear_spec (env : Env) (mapNode : Option MapNode) (heapNext : Nat)
    (calls : List Call) (s : ProjectorManager)
    (h : run env (ProjectorManager.empty mapNode heapNext) calls = some s) :
    (clear env s).projectors_ = [] ∧ (clear env s).groupMap_ = [] ∧
    (clear env s).projectorLayers_ = [] ∧ (clear env s).children_ = [] := by
  have hs := engineParts_run env mapNode heapNext calls s h
  unfold clear
  by_cases hcl : env.HAVE_OSGEARTH_MAP_GETLAYERS = true ∧ env.useRexEngine = true
  · rw [if_pos hcl]
    exact ⟨rfl, (hs.1 hcl.2).1, rfl, (hs.1 hcl.2).2⟩
  · rw [if_neg hcl]
    exact ⟨rfl, rfl, hs.2 hcl, rfl⟩

/-! ## ProjectorManager : the group map as a record of the registered projectors -/

theorem mem_callProjectors_register (calls : List Call) (proj : ProjectorNodePtr)
    (h : Call.registerProjector proj ∈ calls) : proj ∈ callProjectors calls := by
  induction calls with
  | nil => cases h
  | cons c rest ih =>
    rcases List.mem_cons.mp h with e | e
    · subst e
      simp [callProjectors]
    · cases c <;> simp [callProjectors, ih e]

theorem mem_callProjectors_unregister (calls : List Call) (proj : ProjectorNodePtr)
    (h : Call.unregisterProjector proj ∈ calls) : proj ∈ callProjectors calls := by
  induction calls with
  | nil => cases h
  | cons c rest ih =>
    rcases List.mem_cons.mp h with e | e
    · subst e
      simp [callProjectors]
    · cases c <;> simp [callProjectors, ih e]

/-- Counterexample to C10 as stated: in MP-engine mode, with two projector nodes that
carry the same id 7, registering node 1 and unregistering node 2 leaves node 1
registered while id 7 has no group. -/
theorem groupMap_record_counterexample :
    sharedIdEnv.useRexEngine = false ∧
    run sharedIdEnv (ProjectorManager.empty (some plainMapNode) 0)
      [.registerProjector 1, .unregisterProjector 2] = some afterForeignUnregister ∧
    ¬ (∀ i, (afterForeignUnregister.groupMap_.find i).isSome = true ↔
        ∃ p ∈ afterForeignUnregister.projectors_, sharedIdEnv.getId p = i) := by
  refine ⟨rfl, by decide, fun h => ?_⟩
  have h7 := (h 7).mpr ⟨1, by simp [afterForeignUnregister], rfl⟩
  simp [afterForeignUnregister, GroupMap.find] at h7

/-- Claim C10, amended: in MP-engine mode, when no two distinct projector nodes named in
the calls carry the same id, after every sequence of `registerProjector`,
`unregisterProjector` and `clear` calls on an empty manager an id has a group in
`groupMap_` if and only if some projector in `projectors_` has that id. -/
theorem groupMap_record_of_distinct_ids (env : Env) (mapNode : Option MapNode)
    (heapNext : Nat) (calls : List Call) (s : ProjectorManager)
    (hmp : env.useRexEngine = false)
    (hinj : ∀ p ∈ callProjectors calls, ∀ q ∈ callProjectors calls,
      env.getId p = env.getId q → p = q)
    (h : run env (ProjectorManager.empty mapNode heapNext) calls = some s) :
    ∀ i, (s.groupMap_.find i).isSome = true ↔ ∃ p ∈ s.projectors_, env.getId p = i := by
  have hrex : ¬ env.useRexEngine = true := by simp [hmp]
  refine (run_induction env
    (fun s => (∀ p ∈ s.projectors_, p ∈ callProjectors calls) ∧
      ∀ i, (s.groupMap_.find i).isSome = true ↔ ∃ p ∈ s.projectors_, env.getId p = i)
    (fun c => c ∈ calls) ?_ calls _ s (fun _ hc => hc) ?_ h).2
  · intro s0 c s1 hc hs hap
    cases c with
    | registerProjector proj =>
      have hproj := mem_callProjectors_register calls proj hc
      simp only [Call.apply] at hap
      unfold registerProjector at hap
      rw [if_neg hrex] at hap
      by_cases hfind : (s0.groupMap_.find (env.getId proj)).isSome = true
      · rw [if_pos hfind] at hap
        cases hap
        exact hs
      · rw [if_neg hfind] at hap
        cases hm : s0.mapNode_ with
        | none => simp [hm] at hap
        | some mapNode =>
          simp only [hm] at hap
          cases hap
          refine ⟨?_, ?_⟩
          · intro p hp
            simp only [List.mem_append, List.mem_singleton] at hp
            rcases hp with hp | hp
            · exact hs.1 p hp
            · exact hp ▸ hproj
          · intro i
            simp only [groupMap_find_assign, List.mem_append, List.mem_singleton]
            by_cases hi : i = env.getId proj
            · rw [if_pos hi]
              exact ⟨fun _ => ⟨proj, Or.inr rfl, hi.symm⟩, fun _ => rfl⟩
            · rw [if_neg hi, hs.2 i]
              constructor
              · rintro ⟨p, hp, e⟩
                exact ⟨p, Or.inl hp, e⟩
              · rintro ⟨p, hp | hp, e⟩
                · exact ⟨p, hp, e⟩
                · exact absurd (hp ▸ e).symm hi
    | unregisterProjector proj =>
      have hproj := mem_callProjectors_unregister calls proj hc
      simp only [Call.apply, Option.some.injEq] at hap
      subst hap
      have key : ∀ (m : GroupMap),
          (∀ i, (m.find i).isSome = true ↔ (i ≠ env.getId proj ∧
            (s0.groupMap_.find i).isSome = true)) →
          (∀ i, (m.find i).isSome = true ↔
            ∃ p ∈ s0.projectors_.filter (fun q => q ≠ proj), env.getId p = i) := by
        intro m hmfind i
        rw [hmfind i, hs.2 i]
        constructor
        · rintro ⟨hi, p, hp, e⟩
          refine ⟨p, ?_, e⟩
          simp only [List.mem_filter, decide_eq_true_eq]
          exact ⟨hp, fun hpp => hi (hpp ▸ e).symm⟩
        · rintro ⟨p, hp, e⟩
          simp only [List.mem_filter, decide_eq_true_eq] at hp
          refine ⟨fun hi => hp.2 ?_, p, hp.1, e⟩
          exact hinj p (hs.1 p hp.1) proj hproj (e.trans hi)
      unfold unregisterProjector
      simp only [if_neg hrex]
      cases hf : s0.groupMap_.find (env.getId proj) with
      | none =>
        refine ⟨fun p hp => hs.1 p (List.mem_of_mem_filter hp), key _ ?_⟩
        intro i
        constructor
        · intro hi
          refine ⟨fun e => ?_, hi⟩
          rw [e, hf] at hi
          cases hi
        · exact fun hi => hi.2
      | some group =>
        refine ⟨fun p hp => hs.1 p (List.mem_of_mem_filter hp), key _ ?_⟩
        intro i
        simp only [groupMap_find_erase]
        by_cases hi : i = env.getId proj
        · simp [hi]
        · simp [hi]
    | clear =>
      simp only [Call.apply, Option.some.injEq] at hap
      subst hap
      unfold clear
      have hcl : ¬ (env.HAVE_OSGEARTH_MAP_GETLAYERS = true ∧ env.useRexEngine = true) :=
        fun hc => hrex hc.2
      rw [if_neg hcl]
      exact ⟨fun p hp => (by cases hp), fun i => (by simp [GroupMap.find])⟩
  · exact ⟨fun p hp => (by cases hp), fun i => (by simp [ProjectorManager.empty, GroupMap.find])⟩

/-! ## ProjectorManager : the statements at a concrete manager -/

/-- Witness for C7: registering node 1 twice on an empty manager in MP-engine mode. -/
theorem registerProjector_idempotent_witness :
    registerProjector ownIdEnv (ProjectorManager.empty (some plainMapNode) 0) 1
      = some afterFirstRegister ∧
    registerProjector ownIdEnv afterFirstRegister 1 = some afterFirstRegister :=
  ⟨by decide, registerProjector_idempotent ownIdEnv
    (ProjectorManager.empty (some plainMapNode) 0) afterFirstRegister 1 (by decide)⟩

/-- Witness for C8: unregistering node 1 right after registering it. -/
theorem unregisterProjector_spec_witness :
    run ownIdEnv (ProjectorManager.empty (some plainMapNode) 0) [.registerProjector 1]
      = some afterFirstRegister ∧
    1 ∉ (unregisterProjector ownIdEnv afterFirstRegister 1).projectors_ :=
  ⟨by decide, (unregisterProjector_spec ownIdEnv (some plainMapNode) 0
    [.registerProjector 1] afterFirstRegister 1 (by decide)).1⟩

/-- Witness for C9: clearing right after registering node 1. -/
theorem clear_spec_witness :
    run ownIdEnv (ProjectorManager.empty (some plainMapNode) 0) [.registerProjector 1]
      = some afterFirstRegister ∧
    (clear ownIdEnv afterFirstRegister).projectors_ = [] ∧
    (clear ownIdEnv afterFirstRegister).groupMap_ = [] ∧
    (clear ownIdEnv afterFirstRegister).projectorLayers_ = [] ∧
    (clear ownIdEnv afterFirstRegister).children_ = [] :=
  ⟨by decide, clear_spec ownIdEnv (some plainMapNode) 0 [.registerProjector 1]
    afterFirstRegister (by decide)⟩

/-- Witness for the amended C10: after registering node 1, id 1 has a group. -/
theorem groupMap_record_of_distinct_ids_witness :
    ownIdEnv.useRexEngine = false ∧
    (∀ p ∈ callProjectors [.registerProjector 1], ∀ q ∈ callProjectors [.registerProjector 1],
      ownIdEnv.getId p = ownIdEnv.getId q → p = q) ∧
    run ownIdEnv (ProjectorManager.empty (some plainMapNode) 0) [.registerProjector 1]
      = some afterFirstRegister ∧
    ((afterFirstRegister.groupMap_.find 1).isSome = true ↔
      ∃ p ∈ afterFirstRegister.projectors_, ownIdEnv.getId p = 1) :=
  ⟨rfl, by decide, by decide,
    groupMap_record_of_distinct_ids ownIdEnv (some plainMapNode) 0 [.registerProjector 1]
      afterFirstRegister rfl (by decide) (by decide) 1⟩

end simVis

namespace simVis

/-! ## Utils.h : SimulatorEventHandler -/

/-- Claim C11: for a handler constructed with start time `startTime` and then given any
sequence of `setTime` calls, `getTime()` right after `setTime(t)` returns
`max(t, startTime)`, which is never below `startTime`; and right after construction
`getTime()` returns `startTime`. -/
theorem setTime_getTime {α : Type} [LinearOrderedField α] (startTime endTime : α)
    (loop : Bool) (earlier : List α) (t : α) :
    ((earlier.foldl SimulatorEventHandler.setTime
        (SimulatorEventHandler.new startTime endTime loop)).setTime t).getTime
      = max t startTime ∧
    startTime ≤ ((earlier.foldl SimulatorEventHandler.setTime
        (SimulatorEventHandler.new startTime endTime loop)).setTime t).getTime ∧
    (SimulatorEventHandler.new startTime endTime loop).getTime = startTime := by
  have hstart : ∀ (ts : List α) (h : SimulatorEventHandler α),
      (ts.foldl SimulatorEventHandler.setTime h).startTime_ = h.startTime_ := by
    intro ts
    induction ts with
    | nil => intro h; rfl
    | cons u rest ih => intro h; rw [List.foldl_cons, ih]; rfl
  have hval : ((earlier.foldl SimulatorEventHandler.setTime
      (SimulatorEventHandler.new startTime endTime loop)).setTime t).getTime
        = max t startTime := by
    show simCore.sdkMax t _ = _
    rw [hstart]
    rfl
  exact ⟨hval, hval ▸ le_max_right t startTime, rfl⟩

end simVis

namespace simQt

/-! ## EntityLineEdit.cpp : setSelected -/

/-- Claim C13: `setSelected(id)` returns, and it returns 0 exactly when a model is set,
`id` differs from the selected id and the model has a valid index for `id`; then
`selected()` is `id` afterwards. In every other case it returns 1 and `selected()` is
unchanged. -/
theorem setSelected_spec (fuel : Nat) (s : EntityLineEdit) (id : Nat) :
    ∃ r s1, EntityLineEdit.setSelected (fuel + 2) s id = some (r, s1) ∧
      (r = 0 ↔ s.takes id) ∧
      (s.takes id → s1.selected = id) ∧
      (¬ s.takes id → r = 1 ∧ s1.selected = s.selected) := by
  unfold EntityLineEdit.setSelected
  cases hm : s.entityTreeModel_ with
  | none =>
    refine ⟨1, s, rfl, ?_, ?_, ?_⟩
    · simp [EntityLineEdit.takes, hm]
    · simp [EntityLineEdit.takes, hm]
    · exact fun _ => ⟨rfl, rfl⟩
  | some model =>
    by_cases hid : id = s.uniqueId_
    · refine ⟨1, s, by simp [hid], ?_, ?_, ?_⟩
      · simp [EntityLineEdit.takes, hid]
      · simp [EntityLineEdit.takes, hid]
      · exact fun _ => ⟨rfl, rfl⟩
    · cases hx : model.index id with
      | none =>
        refine ⟨1, s, by simp [hid, hx], ?_, ?_, ?_⟩
        · simp [EntityLineEdit.takes, hm, hx]
        · simp [EntityLineEdit.takes, hm, hx]
        · exact fun _ => ⟨rfl, rfl⟩
      | some index =>
        have htakes : s.takes id := ⟨model, hm, hid, by simp [hx]⟩
        cases hd : s.entityDialog_ with
        | none =>
          refine ⟨0, _, (by simp [hid, hx, hd]; rfl), ?_, ?_, ?_⟩
          · simp [htakes]
          · intro _; rfl
          · exact fun h => absurd htakes h
        | some dialog =>
          cases he : (dialog.setItemSelected id).2 with
          | none =>
            refine ⟨0, _, (by simp [hid, hx, hd, he]; rfl), ?_, ?_, ?_⟩
            · simp [htakes]
            · intro _; rfl
            · exact fun h => absurd htakes h
          | some emitted =>
            have hem : emitted = id := by
              unfold EntityDialog.setItemSelected at he
              by_cases h0 : id ≠ 0
              · rw [if_pos h0] at he
                by_cases hr : dialog.reportsSelection = true
                · simp [hr] at he
                  exact he.symm
                · simp [hr] at he
              · rw [if_neg h0] at he
                simp at he
            subst hem
            refine ⟨0, _, (by simp [hid, hx, hd, he, EntityLineEdit.setSelected, hm]; rfl), ?_, ?_, ?_⟩
            · simp [htakes]
            · intro _; rfl
            · exact fun h => absurd htakes h

end simQt

namespace simCore.StringUtils

/-! ## StringUtils : searching -/

theorem startsWith_iff (str needle : List Char) :
    startsWith str needle = true ↔ ∃ q, str = needle ++ q := by
  induction needle generalizing str with
  | nil => cases str <;> simp [startsWith]
  | cons d needle ih =>
    cases str with
    | nil => simp [startsWith]
    | cons c str =>
      simp only [startsWith, Bool.and_eq_true, decide_eq_true_eq, ih, List.cons_append,
        List.cons.injEq]
      constructor
      · rintro ⟨h, q, hq⟩
        exact ⟨q, h, hq⟩
      · rintro ⟨q, h, hq⟩
        exact ⟨h, q, hq⟩

theorem not_occurs_nil {needle : List Char} (hn : needle ≠ []) : ¬ occurs [] needle := by
  rintro ⟨p, q, h⟩
  have h1 := congrArg List.length h
  simp only [List.length_nil, List.length_append] at h1
  exact hn (List.length_eq_zero.mp (by omega))

theorem occurs_cons {c : Char} {str needle : List Char} (h : occurs (c :: str) needle) :
    startsWith (c :: str) needle = true ∨ occurs str needle := by
  obtain ⟨p, q, h⟩ := h
  cases p with
  | nil => exact Or.inl ((startsWith_iff _ _).mpr ⟨q, by simpa using h⟩)
  | cons d p =>
    simp only [List.cons_append, List.cons.injEq] at h
    exact Or.inr ⟨p, q, h.2⟩

theorem find_none (str needle : List Char) (h : find str needle = none) :
    ¬ occurs str needle := by
  induction str with
  | nil =>
    unfold find at h
    by_cases hn : needle = []
    · simp [hn] at h
    · exact not_occurs_nil hn
  | cons c str ih =>
    unfold find at h
    by_cases hs : startsWith (c :: str) needle = true
    · simp [hs] at h
    · rw [if_neg hs] at h
      have h2 : find str needle = none := by
        cases hf : find str needle with
        | none => rfl
        | some i => simp [hf] at h
      intro ho
      rcases occurs_cons ho with h3 | h3
      · exact hs h3
      · exact ih h2 h3

theorem find_some (str needle : List Char) (pos : Nat) (h : find str needle = some pos) :
    str.take pos ++ needle ++ str.drop (pos + needle.length) = str ∧
    (str.take pos).length = pos ∧
    ∀ p q, str = p ++ needle ++ q → pos ≤ p.length := by
  induction str generalizing pos with
  | nil =>
    unfold find at h
    by_cases hn : needle = []
    · simp [hn] at h
      subst h
      simp [hn]
    · simp [hn] at h
  | cons c str ih =>
    unfold find at h
    by_cases hs : startsWith (c :: str) needle = true
    · rw [if_pos hs] at h
      cases h
      obtain ⟨q, hq⟩ := (startsWith_iff _ _).mp hs
      refine ⟨?_, rfl, fun _ _ _ => Nat.zero_le _⟩
      rw [hq]
      simp
    · rw [if_neg hs] at h
      cases hf : find str needle with
      | none => simp [hf] at h
      | some i =>
        simp only [hf, Option.map_some', Option.some.injEq] at h
        subst h
        obtain ⟨h1, h2, h3⟩ := ih i hf
        refine ⟨?_, ?_, ?_⟩
        · have e : i + 1 + needle.length = (i + needle.length) + 1 := by omega
          rw [e]
          simp only [List.take_succ_cons, List.drop_succ_cons, List.cons_append]
          rw [h1]
        · simp only [List.take_succ_cons, List.length_cons, h2]
        · intro p q hpq
          cases p with
          | nil => exact absurd ((startsWith_iff _ _).mpr ⟨q, by simpa using hpq⟩) hs
          | cons d p =>
            simp only [List.cons_append, List.cons.injEq] at hpq
            have := h3 p q hpq.2
            simp only [List.length_cons]
            omega

theorem rfind_none (str needle : List Char) (h : rfind str needle = none) :
    ¬ occurs str needle := by
  induction str with
  | nil =>
    unfold rfind at h
    by_cases hn : needle = []
    · simp [hn] at h
    · exact not_occurs_nil hn
  | cons c str ih =>
    unfold rfind at h
    cases hf : rfind str needle with
    | some i => simp [hf] at h
    | none =>
      simp only [hf] at h
      by_cases hs : startsWith (c :: str) needle = true
      · simp [hs] at h
      · intro ho
        rcases occurs_cons ho with h3 | h3
        · exact hs h3
        · exact ih hf h3

theorem rfind_some (str needle : List Char) (pos : Nat) (h : rfind str needle = some pos) :
    str.take pos ++ needle ++ str.drop (pos + needle.length) = str ∧
    (str.take pos).length = pos ∧
    ∀ p q, str = p ++ needle ++ q → p.length ≤ pos := by
  induction str generalizing pos with
  | nil =>
    unfold rfind at h
    by_cases hn : needle = []
    · simp [hn] at h
      subst h
      refine ⟨by simp [hn], rfl, ?_⟩
      intro p q hpq
      have h1 := congrArg List.length hpq
      simp only [List.length_nil, List.length_append] at h1
      omega
    · simp [hn] at h
  | cons c str ih =>
    unfold rfind at h
    cases hf : rfind str needle with
    | some i =>
      simp only [hf, Option.some.injEq] at h
      subst h
      obtain ⟨h1, h2, h3⟩ := ih i hf
      refine ⟨?_, ?_, ?_⟩
      · have e : i + 1 + needle.length = (i + needle.length) + 1 := by omega
        rw [e]
        simp only [List.take_succ_cons, List.drop_succ_cons, List.cons_append]
        rw [h1]
      · simp only [List.take_succ_cons, List.length_cons, h2]
      · intro p q hpq
        cases p with
        | nil => simp
        | cons d p =>
          simp only [List.cons_append, List.cons.injEq] at hpq
          have := h3 p q hpq.2
          simp only [List.length_cons]
          omega
    | none =>
      simp only [hf] at h
      by_cases hs : startsWith (c :: str) needle = true
      · rw [if_pos hs] at h
        cases h
        obtain ⟨q, hq⟩ := (startsWith_iff _ _).mp hs
        refine ⟨?_, rfl, ?_⟩
        · rw [hq]
          simp
        · intro p q2 hpq
          cases p with
          | nil => simp
          | cons d p =>
            simp only [List.cons_append, List.cons.injEq] at hpq
            exact absurd ⟨p, q2, hpq.2⟩ (rfind_none str needle hf)
      · simp [hs] at h

theorem findChar_eq_find (str : List Char) (ch : Char) : findChar str ch = find str [ch] := by
  induction str with
  | nil => simp [findChar, find]
  | cons c str ih =>
    unfold findChar find
    rw [ih]
    cases str <;> simp [startsWith]

theorem rfindChar_eq_rfind (str : List Char) (ch : Char) :
    rfindChar str ch = rfind str [ch] := by
  induction str with
  | nil => simp [rfindChar, rfind]
  | cons c str ih =>
    unfold rfindChar rfind
    rw [ih]
    cases str <;> simp [startsWith]

theorem find_isSome_of_occurs (str needle : List Char) (h : occurs str needle) :
    ∃ pos, find str needle = some pos := by
  cases hf : find str needle with
  | none => exact absurd h (find_none str needle hf)
  | some pos => exact ⟨pos, rfl⟩

theorem rfind_isSome_of_occurs (str needle : List Char) (h : occurs str needle) :
    ∃ pos, rfind str needle = some pos := by
  cases hf : rfind str needle with
  | none => exact absurd h (rfind_none str needle hf)
  | some pos => exact ⟨pos, rfl⟩

theorem find_eq_none_of_not_occurs (str needle : List Char) (h : ¬ occurs str needle) :
    find str needle = none := by
  cases hf : find str needle with
  | none => rfl
  | some pos =>
    exact absurd ⟨_, _, (find_some str needle pos hf).1.symm⟩ h

theorem rfind_eq_none_of_not_occurs (str needle : List Char) (h : ¬ occurs str needle) :
    rfind str needle = none := by
  cases hf : rfind str needle with
  | none => rfl
  | some pos =>
    exact absurd ⟨_, _, (rfind_some str needle pos hf).1.symm⟩ h

/-! ## StringUtils : before and after -/

/-- Claim C15: for a needle, empty or not, that occurs in `str`, `before ++ needle ++ after`
is `str` with no occurrence of the needle starting earlier than the split, and
`beforeLast ++ needle ++ afterLast` is `str` with no occurrence starting later; for a
needle that does not occur, `before` and `beforeLast` are `str` and `after` and
`afterLast` are empty; the char overloads agree with the string overloads on the
one-character needle. -/
theorem before_after_spec (str needle : List Char) :
    (occurs str needle →
      before str needle ++ needle ++ after str needle = str ∧
      (∀ p q, str = p ++ needle ++ q → (before str needle).length ≤ p.length) ∧
      beforeLast str needle ++ needle ++ afterLast str needle = str ∧
      (∀ p q, str = p ++ needle ++ q → p.length ≤ (beforeLast str needle).length)) ∧
    (¬ occurs str needle →
      before str needle = str ∧ beforeLast str needle = str ∧
      after str needle = [] ∧ afterLast str needle = []) ∧
    (∀ ch : Char,
      beforeChar str ch = before str [ch] ∧ afterChar str ch = after str [ch] ∧
      beforeLastChar str ch = beforeLast str [ch] ∧
      afterLastChar str ch = afterLast str [ch]) := by
  refine ⟨fun ho => ?_, fun hno => ?_, fun ch => ?_⟩
  · obtain ⟨i, hi⟩ := find_isSome_of_occurs str needle ho
    obtain ⟨j, hj⟩ := rfind_isSome_of_occurs str needle ho
    obtain ⟨f1, f2, f3⟩ := find_some str needle i hi
    obtain ⟨r1, r2, r3⟩ := rfind_some str needle j hj
    simp only [before, after, beforeLast, afterLast, hi, hj]
    exact ⟨f1, fun p q h => le_of_eq_of_le f2 (f3 p q h), r1,
      fun p q h => le_of_le_of_eq (r3 p q h) r2.symm⟩
  · simp [before, after, beforeLast, afterLast, find_eq_none_of_not_occurs str needle hno,
      rfind_eq_none_of_not_occurs str needle hno]
  · simp [beforeChar, afterChar, beforeLastChar, afterLastChar, before, after, beforeLast,
      afterLast, findChar_eq_find, rfindChar_eq_rfind]

/-- Witness for C15: the test string "a=b=c" split on "=". -/
theorem before_after_spec_witness :
    occurs ['a', '=', 'b', '=', 'c'] ['='] ∧
    before ['a', '=', 'b', '=', 'c'] ['='] = ['a'] ∧
    after ['a', '=', 'b', '=', 'c'] ['='] = ['b', '=', 'c'] ∧
    before ['a', '=', 'b', '=', 'c'] ['='] ++ ['='] ++ after ['a', '=', 'b', '=', 'c'] ['=']
      = ['a', '=', 'b', '=', 'c'] :=
  ⟨⟨['a'], ['b', '=', 'c'], by decide⟩, by decide, by decide,
    ((before_after_spec ['a', '=', 'b', '=', 'c'] ['=']).1
      ⟨['a'], ['b', '=', 'c'], by decide⟩).1⟩

/-! ## StringUtils : substitute -/

theorem substituteScan_nil (needle repl : List Char) (replaceAll : Bool) (skip : Nat) :
    substituteScan needle repl replaceAll skip [] = [] := by
  cases skip <;> rfl

theorem substituteScan_skip (needle repl : List Char) (replaceAll : Bool) (skip : Nat)
    (str : List Char) :
    substituteScan needle repl replaceAll skip str
      = substituteScan needle repl replaceAll 0 (str.drop skip) := by
  induction skip generalizing str with
  | zero => rfl
  | succ k ih =>
    cases str with
    | nil => simp [substituteScan_nil]
    | cons c rest =>
      rw [substituteScan, ih]
      rfl

theorem substituteScan_eq (needle repl : List Char) (replaceAll : Bool) (hn : needle ≠ [])
    (str : List Char) :
    substituteScan needle repl replaceAll 0 str
      = match find str needle with
        | none => str
        | some pos =>
          str.take pos ++ repl ++
            (if replaceAll then
              substituteScan needle repl replaceAll 0 (str.drop (pos + needle.length))
            else str.drop (pos + needle.length)) := by
  induction str with
  | nil => simp [substituteScan, find, hn]
  | cons c rest ih =>
    have hlen : needle.length = (needle.length - 1) + 1 := by
      have : needle.length ≠ 0 := fun h => hn (List.length_eq_zero.mp h)
      omega
    rw [substituteScan, find]
    by_cases hs : startsWith (c :: rest) needle = true
    · rw [if_pos hs, if_pos hs]
      simp only [List.take_zero, List.nil_append, Nat.zero_add]
      rw [substituteScan_skip]
      congr 2
      rw [hlen, List.drop_succ_cons]
      simp
    · rw [if_neg hs, if_neg hs, ih]
      cases hf : find rest needle with
      | none => rfl
      | some i =>
        have e : i + 1 + needle.length = (i + needle.length) + 1 := by omega
        simp only [Option.map_some', List.take_succ_cons, List.cons_append, e,
          List.drop_succ_cons]

/-- Claim C16: for a non-empty needle that occurs in the haystack, `substitute` with
`replaceAll = true` is the text before the first occurrence, the replacement, and the
substitution of what follows that occurrence, so the replacement itself is never
searched; with `replaceAll = false` it is the text before the first occurrence, the
replacement, and what follows unchanged; a haystack without the needle is returned as
it is. -/
theorem substitute_spec (haystack needle repl : List Char) (hn : needle ≠ []) :
    (occurs haystack needle →
      substitute haystack needle repl true
        = before haystack needle ++ repl ++ substitute (after haystack needle) needle repl true ∧
      substitute haystack needle repl false
        = before haystack needle ++ repl ++ after haystack needle) ∧
    (¬ occurs haystack needle → ∀ replaceAll,
      substitute haystack needle repl replaceAll = haystack) := by
  refine ⟨fun ho => ?_, fun hno replaceAll => ?_⟩
  · obtain ⟨i, hi⟩ := find_isSome_of_occurs haystack needle ho
    simp only [substitute, if_neg hn, before, after, hi]
    constructor
    · rw [substituteScan_eq needle repl true hn haystack, hi]
      simp
    · rw [substituteScan_eq needle repl false hn haystack, hi]
      simp
  · simp only [substitute, if_neg hn]
    rw [substituteScan_eq needle repl replaceAll hn haystack,
      find_eq_none_of_not_occurs haystack needle hno]

/-- Witness for C16: the replacement "xbary" contains the needle "bar" and is not
substituted again. -/
theorem substitute_spec_witness :
    ['b', 'a', 'r'] ≠ [] ∧
    substitute ['b', 'a', 'r', 'b', 'a', 'r', 'a'] ['b', 'a', 'r'] ['x', 'b', 'a', 'r', 'y'] true
      = ['x', 'b', 'a', 'r', 'y', 'x', 'b', 'a', 'r', 'y', 'a'] ∧
    substitute ['b', 'a', 'r', 'b', 'a', 'r', 'a'] ['b', 'a', 'r'] ['x', 'b', 'a', 'r', 'y'] false
      = before ['b', 'a', 'r', 'b', 'a', 'r', 'a'] ['b', 'a', 'r'] ++ ['x', 'b', 'a', 'r', 'y']
        ++ after ['b', 'a', 'r', 'b', 'a', 'r', 'a'] ['b', 'a', 'r'] :=
  ⟨by decide, by decide,
    ((substitute_spec ['b', 'a', 'r', 'b', 'a', 'r', 'a'] ['b', 'a', 'r']
      ['x', 'b', 'a', 'r', 'y'] (by decide)).1 ⟨[], ['b', 'a', 'r', 'a'], by decide⟩).2⟩

/-! ## StringUtils : trimming -/

theorem dropWhile_append_of_all (P : Char → Bool) (a b : List Char)
    (h : ∀ c ∈ a, P c = true) : (a ++ b).dropWhile P = b.dropWhile P := by
  induction a with
  | nil => rfl
  | cons c a ih =>
    have hc : P c = true := h c (List.mem_cons_self c a)
    simp only [List.cons_append, List.dropWhile_cons, hc, if_true]
    exact ih (fun d hd => h d (List.mem_cons_of_mem c hd))

theorem dropWhile_of_head (P : Char → Bool) (m : List Char) (c : Char)
    (h : m.head? = some c) (hc : ¬ P c = true) : m.dropWhile P = m := by
  cases m with
  | nil => rfl
  | cons d m =>
    simp only [List.head?_cons, Option.some.injEq] at h
    subst h
    simp [List.dropWhile_cons, hc]

theorem dropWhile_split (P : Char → Bool) (str : List Char) :
    ∃ p, str = p ++ str.dropWhile P ∧ (∀ c ∈ p, P c = true) ∧
      ∀ p2 t2, str = p2 ++ t2 → (∀ c ∈ p2, P c = true) → p2.length ≤ p.length := by
  induction str with
  | nil =>
    refine ⟨[], rfl, by simp, ?_⟩
    intro p2 t2 h _
    have h1 := congrArg List.length h
    simp only [List.length_nil, List.length_append] at h1
    simp only [List.length_nil]
    omega
  | cons c str ih =>
    obtain ⟨p, h1, h2, h3⟩ := ih
    by_cases hc : P c = true
    · refine ⟨c :: p, ?_, ?_, ?_⟩
      · simp only [List.dropWhile_cons, hc, if_true, List.cons_append]
        rw [← h1]
      · intro d hd
        rcases List.mem_cons.mp hd with e | e
        · exact e ▸ hc
        · exact h2 d e
      · intro p2 t2 h hp
        cases p2 with
        | nil => simp
        | cons d p2 =>
          simp only [List.cons_append, List.cons.injEq] at h
          have := h3 p2 t2 h.2 (fun x hx => hp x (List.mem_cons_of_mem d hx))
          simp only [List.length_cons]
          omega
    · refine ⟨[], by simp [List.dropWhile_cons, hc], by simp, ?_⟩
      intro p2 t2 h hp
      cases p2 with
      | nil => simp
      | cons d p2 =>
        simp only [List.cons_append, List.cons.injEq] at h
        exact absurd (h.1 ▸ hp d (List.mem_cons_self d p2)) hc

/-- Claim C17: `trimLeft` removes the longest prefix made only of `whiteSpace`
characters, `trimRight` the longest such suffix, and `trim` is `trimLeft` of
`trimRight`; a string whose middle part begins and ends with characters outside
`whiteSpace` trims to that middle part with its interior kept, and a string made
entirely of `whiteSpace` characters trims to the empty string. -/
theorem trim_spec (str whiteSpace : List Char) :
    (∃ p, str = p ++ trimLeft str whiteSpace ∧ (∀ c ∈ p, c ∈ whiteSpace) ∧
      ∀ p2 t2, str = p2 ++ t2 → (∀ c ∈ p2, c ∈ whiteSpace) → p2.length ≤ p.length) ∧
    (∃ q, str = trimRight str whiteSpace ++ q ∧ (∀ c ∈ q, c ∈ whiteSpace) ∧
      ∀ t2 q2, str = t2 ++ q2 → (∀ c ∈ q2, c ∈ whiteSpace) → q2.length ≤ q.length) ∧
    trim str whiteSpace = trimLeft (trimRight str whiteSpace) whiteSpace ∧
    (∀ p m q a b, str = p ++ m ++ q → (∀ c ∈ p, c ∈ whiteSpace) →
      (∀ c ∈ q, c ∈ whiteSpace) → m.head? = some a → a ∉ whiteSpace →
      m.getLast? = some b → b ∉ whiteSpace → trim str whiteSpace = m) ∧
    ((∀ c ∈ str, c ∈ whiteSpace) → trim str whiteSpace = []) := by
  refine ⟨?_, ?_, rfl, ?_, ?_⟩
  · obtain ⟨p, h1, h2, h3⟩ := dropWhile_split (fun c => decide (c ∈ whiteSpace)) str
    exact ⟨p, h1, fun c hc => by simpa using h2 c hc,
      fun p2 t2 h hp => h3 p2 t2 h (fun c hc => by simpa using hp c hc)⟩
  · obtain ⟨p, h1, h2, h3⟩ := dropWhile_split (fun c => decide (c ∈ whiteSpace)) str.reverse
    refine ⟨p.reverse, ?_, ?_, ?_⟩
    · have := congrArg List.reverse h1
      simpa [trimRight] using this
    · intro c hc
      simpa using h2 c (List.mem_reverse.mp hc)
    · intro t2 q2 h hq
      have := h3 q2.reverse t2.reverse (by rw [h]; simp)
        (fun c hc => by simpa using hq c (List.mem_reverse.mp hc))
      simpa using this
  · intro p m q a b h hp hq ha hna hb hnb
    have hr : trimRight str whiteSpace = p ++ m := by
      unfold trimRight
      rw [h]
      simp only [List.reverse_append]
      rw [dropWhile_append_of_all _ q.reverse _
        (fun c hc => by simpa using hq c (List.mem_reverse.mp hc))]
      rw [dropWhile_of_head _ (m.reverse ++ p.reverse) b
        (by
          cases hm : m.reverse with
          | nil =>
            have : m = [] := by simpa using hm
            simp [this] at hb
          | cons d rest =>
            have hd : m.getLast? = some d := by
              rw [← List.head?_reverse, hm]
              rfl
            rw [hb] at hd
            simp only [Option.some.injEq] at hd
            simp [hd])
        (by simpa using hnb)]
      simp
    unfold trim
    rw [hr]
    unfold trimLeft
    rw [dropWhile_append_of_all _ p m (fun c hc => by simpa using hp c hc)]
    exact dropWhile_of_head _ m a ha (by simpa using hna)
  · intro hall
    have hr : trimRight str whiteSpace = [] := by
      unfold trimRight
      have := dropWhile_append_of_all (fun c => decide (c ∈ whiteSpace)) str.reverse []
        (fun c hc => by simpa using hall c (List.mem_reverse.mp hc))
      simp only [List.append_nil] at this
      rw [this]
      rfl
    unfold trim
    rw [hr]
    rfl

/-- Witness for C17: " 4 3 " trims to "4 3". -/
theorem trim_spec_witness :
    trim [' ', '4', ' ', '3', ' '] STR_WHITE_SPACE_CHARS = ['4', ' ', '3'] :=
  (trim_spec [' ', '4', ' ', '3', ' '] STR_WHITE_SPACE_CHARS).2.2.2.1
    [' '] ['4', ' ', '3'] [' '] '4' '3' (by decide) (by decide) (by decide) (by decide)
    (by decide) (by decide) (by decide)

end simCore.StringUtils

namespace simCore.StringUtils

/-! ## StringUtils : the cases of `StringUtilsTest.cpp` on the modelled functions -/

/-- Cases of `testBeforeAfter`. -/
theorem testBeforeAfter_cases :
    before "foobar=baz".toList "=".toList = "foobar".toList ∧
    after "foobar=baz".toList "=".toList = "baz".toList ∧
    before "=baz".toList "=".toList = [] ∧
    after "foobar=".toList "=".toList = [] ∧
    before "foobar".toList "=".toList = "foobar".toList ∧
    after "foobar".toList "=".toList = [] ∧
    beforeLast "foobar=baz=zoo".toList "=".toList = "foobar=baz".toList ∧
    afterLast "foobar=baz=zoo".toList "=".toList = "zoo".toList ∧
    before "foobar:;:baz:;:zoo".toList ":;:".toList = "foobar".toList ∧
    beforeLast "foobar:;:baz:;:zoo".toList ":;:".toList = "foobar:;:baz".toList ∧
    after "foobar:;:baz:;:zoo".toList ":;:".toList = "baz:;:zoo".toList ∧
    afterLast "foobar:;:baz:;:zoo".toList ":;:".toList = "zoo".toList := by
  decide

/-- Cases of `testSubstitute`. -/
theorem testSubstitute_cases :
    substitute "foobar".toList "bar".toList "baz".toList true = "foobaz".toList ∧
    substitute "barfoobar".toList "bar".toList "baz".toList true = "bazfoobaz".toList ∧
    substitute "barbara".toList "bar".toList "xxxxbary".toList true
      = "xxxxbaryxxxxbarya".toList ∧
    substitute "barbara".toList "bar".toList "zoo".toList false = "zoobara".toList := by
  decide

/-- Cases of `testTrim`. -/
theorem testTrim_cases :
    trimLeft "  43\t".toList STR_WHITE_SPACE_CHARS = "43\t".toList ∧
    trimRight "  43\t".toList STR_WHITE_SPACE_CHARS = "  43".toList ∧
    trim " 4 3 ".toList STR_WHITE_SPACE_CHARS = "4 3".toList ∧
    trim "\t   \r".toList STR_WHITE_SPACE_CHARS = [] ∧
    trim "\tTest newline \n in the middle\r".toList STR_WHITE_SPACE_CHARS
      = "Test newline \n in the middle".toList ∧
    trim "43  ".toList "4".toList = "3  ".toList ∧
    trim "aaaaahah mmmmm".toList "am".toList = "hah ".toList ∧
    trim "theThe".toList "eht".toList = "T".toList ∧
    trim "/* Comment line */".toList "/*# ".toList = "Comment line".toList ∧
    trim "/*   */".toList "/*# ".toList = [] := by
  decide

end simCore.StringUtils
